import Mathlib

/-!
Verification of the Starbucks tip-jar allocation core.

The JavaScript source is shallowly embedded: JS numbers are modelled as
rationals (ℚ) — every step of the financial arithmetic in the source adds an
explicit `1e-8` epsilon before flooring or rounding precisely so that the
double-precision computation agrees with the ideal decimal computation, which
the rational model captures exactly.  Strings are modelled as Lean `String` /
`List Char` restricted to ASCII (all inputs of interest are ASCII).
-/

section TipJarDevelopment

attribute [local semireducible] Rat.add Rat.mul Rat.inv Rat.sub Rat.ofScientific

namespace TipJar

/-- The `1e-8` epsilon the source adds before flooring/rounding. -/
def eps : ℚ := 1 / 100000000

/-- JS `Math.round`: round half toward positive infinity, `⌊x + 1/2⌋`. -/
def jsRound (x : ℚ) : ℤ := ⌊x + 1 / 2⌋

/-- `truncateToTwoDecimals` from the source:
`Math.floor(value * 100 + 1e-8) / 100`. -/
def truncateToTwoDecimals (value : ℚ) : ℚ := (⌊value * 100 + eps⌋ : ℚ) / 100

/-- `roundToTwoDecimals` from the source:
`Math.round(value * 100 + 1e-8) / 100`. -/
def roundToTwoDecimals (value : ℚ) : ℚ := (jsRound (value * 100 + eps) : ℚ) / 100

/-- A count of notes of each denomination. -/
structure Bills where
  twenties : ℕ
  tens : ℕ
  fives : ℕ
  ones : ℕ
deriving Repr, DecidableEq

/-- `breakdownBills` from the source.  The input is an arbitrary JS number
(`ℚ` in the model); the source first clamps it with
`Math.max(0, Math.floor(amountWholeDollars))`, after which each step is a
floor division exactly as written (`Math.floor(remaining / 20)` on a
non-negative integer is ℕ-division). -/
def breakdownBills (amountWholeDollars : ℚ) : Bills :=
  let remaining := (max 0 ⌊amountWholeDollars⌋).toNat
  let twenties := remaining / 20
  let remaining := remaining - twenties * 20
  let tens := remaining / 10
  let remaining := remaining - tens * 10
  let fives := remaining / 5
  let remaining := remaining - fives * 5
  let ones := remaining
  ⟨twenties, tens, fives, ones⟩

/-- One per-partner row of a calculation run. -/
structure CalcResult where
  hours : ℚ
  decimalTip : ℚ
  wholeDollarPayout : ℤ
  breakdown : Bills
deriving Repr, DecidableEq

/-- The per-partner body of `runCalculations` (part_000 lines 1024-1054).
`safeHours` reflects `isFinite(hours) && hours > 0 ? hours : 0` (finiteness is
automatic in ℚ); the payout policy of this variant is
`decimalTip > 0 ? Math.round(decimalTip + 1e-8) : 0`. -/
def calcPartner (hourlyRateTruncated : ℚ) (hours : ℚ) : CalcResult :=
  let safeHours := if 0 < hours then hours else 0
  let rawTip := hourlyRateTruncated * safeHours
  let decimalTip := roundToTwoDecimals rawTip
  let wholeDollarPayout : ℤ := if 0 < decimalTip then jsRound (decimalTip + eps) else 0
  ⟨safeHours, decimalTip, wholeDollarPayout, breakdownBills (wholeDollarPayout : ℚ)⟩

/-- `runCalculations` from part_000 lines 990-1070 (the round-to-nearest
variant), as a pure function: the two `alert` validation exits become `none`,
and the hourly rate plus per-partner result rows are returned.  Partner hours
arrive already coerced to numbers (the table stores numbers), so the partner
list is a list of ℚ. -/
def runCalculations (totalTipsVal : ℚ) (partners : List ℚ) : Option (ℚ × List CalcResult) :=
  if totalTipsVal ≤ 0 then none
  else
    let totalHours := partners.foldl (· + ·) 0
    if totalHours ≤ 0 then none
    else
      let hourlyRateTruncated := truncateToTwoDecimals (totalTipsVal / totalHours)
      some (hourlyRateTruncated, partners.map (calcPartner hourlyRateTruncated))

/-- The per-partner body of the second `runCalculations` variant (part_000
lines 1817-1848), identical except that the payout policy is
`decimalTip > 0 ? Math.ceil(decimalTip - 1e-8) : 0`. -/
def calcPartnerCeil (hourlyRateTruncated : ℚ) (hours : ℚ) : CalcResult :=
  let safeHours := if 0 < hours then hours else 0
  let rawTip := hourlyRateTruncated * safeHours
  let decimalTip := roundToTwoDecimals rawTip
  let wholeDollarPayout : ℤ := if 0 < decimalTip then ⌈decimalTip - eps⌉ else 0
  ⟨safeHours, decimalTip, wholeDollarPayout, breakdownBills (wholeDollarPayout : ℚ)⟩

/-- The second `runCalculations` variant (part_000 lines 1783-1852), which
rounds each payout up instead of to the nearest dollar. -/
def runCalculationsCeil (totalTipsVal : ℚ) (partners : List ℚ) : Option (ℚ × List CalcResult) :=
  if totalTipsVal ≤ 0 then none
  else
    let totalHours := partners.foldl (· + ·) 0
    if totalHours ≤ 0 then none
    else
      let hourlyRateTruncated := truncateToTwoDecimals (totalTipsVal / totalHours)
      some (hourlyRateTruncated, partners.map (calcPartnerCeil hourlyRateTruncated))

/-- A partner record as extracted for either period. -/
structure Partner where
  name : String
  number : String
  hours : ℚ
deriving Repr, DecidableEq

/-- `normalizeNameKey` from holiday-dashboard.js lines 463-468:
`name.toLowerCase().replace(/[^a-z]/g, '').trim()` (ASCII model).  The
trailing `.trim()` is omitted: after the `[^a-z]` filter no whitespace
remains, so it never changes anything. -/
def normalizeNameKey (name : String) : String :=
  String.mk ((name.toList.map Char.toLower).filter fun c => decide ('a' ≤ c ∧ c ≤ 'z'))

/-- A merged two-period partner entry of the holiday-dashboard partner map. -/
structure MergedPartner where
  name : String
  number : String
  normalHours : ℚ
  holidayHours : ℚ
deriving Repr, DecidableEq

/-- The JS `Map` of `calculateHolidaySplitTips`, as an insertion-ordered
association list with unique keys. -/
abbrev PartnerMap := List (String × MergedPartner)

/-- `partnerMap.get(key)` (JS `Map` lookup). -/
def mapLookup (m : PartnerMap) (k : String) : Option MergedPartner :=
  (m.find? fun e => e.1 == k).map (·.2)

/-- In-place mutation of the entry under `k` (JS `partnerMap.get(key).f = …`);
keys are unique by construction so at most one entry changes. -/
def mapUpdate (m : PartnerMap) (k : String) (f : MergedPartner → MergedPartner) : PartnerMap :=
  m.map fun e => if e.1 == k then (e.1, f e.2) else e

/-- `partnerMap.get(key).normalHours += p.hours` followed by the
`if (p.number && !entry.number) entry.number = p.number` fix-up
(holiday-dashboard.js lines 366-369). -/
def bumpNormal (p : Partner) (e : MergedPartner) : MergedPartner :=
  let e := { e with normalHours := e.normalHours + p.hours }
  if p.number ≠ "" ∧ e.number = "" then { e with number := p.number } else e

/-- Same as `bumpNormal` but for the holiday period (lines 383-386). -/
def bumpHoliday (p : Partner) (e : MergedPartner) : MergedPartner :=
  let e := { e with holidayHours := e.holidayHours + p.hours }
  if p.number ≠ "" ∧ e.number = "" then { e with number := p.number } else e

/-- One iteration of the partner-map building loops of
`calculateHolidaySplitTips` (holiday-dashboard.js lines 356-387): create a
fresh entry when the normalized key is absent, then bump the period hours. -/
def insertPartner (bump : Partner → MergedPartner → MergedPartner) (m : PartnerMap)
    (p : Partner) : PartnerMap :=
  let key := normalizeNameKey p.name
  let m := if m.any (fun e => e.1 == key) then m else m ++ [(key, ⟨p.name, p.number, 0, 0⟩)]
  mapUpdate m key (bump p)

/-- The partner map built by `calculateHolidaySplitTips` lines 352-387:
normal partners first, then holiday partners merged in by normalized-name
key. -/
def buildPartnerMap (normalPartners holidayPartners : List Partner) : PartnerMap :=
  holidayPartners.foldl (insertPartner bumpHoliday)
    (normalPartners.foldl (insertPartner bumpNormal) [])

/-- One result row of `calculateHolidaySplitTips`. -/
structure HolidayResult where
  name : String
  number : String
  normalHours : ℚ
  holidayHours : ℚ
  normalTip : ℚ
  holidayTip : ℚ
  combinedDecimal : ℚ
  wholeDollarPayout : ℤ
  breakdown : Bills
deriving Repr, DecidableEq

/-- `calculateHolidaySplitTips` from holiday-dashboard.js lines 344-458, as
the list of per-partner result rows in partner-map order.  The source's final
`sort` by `localeCompare` on names and the summary totals only permute /
aggregate these rows and are omitted; every per-row field is produced exactly
as in the source (rates truncated once per period, per-period tips rounded to
cents, whole-dollar rounding applied once to the combined decimal total). -/
def calculateHolidaySplitTips (normalPartners holidayPartners : List Partner)
    (normalHourlyRate holidayHourlyRate : ℚ) : List HolidayResult :=
  let partnerMap := buildPartnerMap normalPartners holidayPartners
  let truncNormalRate := truncateToTwoDecimals normalHourlyRate
  let truncHolidayRate := truncateToTwoDecimals holidayHourlyRate
  partnerMap.map fun e =>
    let partner := e.2
    let normalTipRaw := truncNormalRate * partner.normalHours
    let normalTipDecimal := roundToTwoDecimals normalTipRaw
    let holidayTipRaw := truncHolidayRate * partner.holidayHours
    let holidayTipDecimal := roundToTwoDecimals holidayTipRaw
    let combinedDecimal := normalTipDecimal + holidayTipDecimal
    let wholeDollarPayout : ℤ := if 0 < combinedDecimal then jsRound (combinedDecimal + eps) else 0
    ⟨partner.name, partner.number, partner.normalHours, partner.holidayHours,
      normalTipDecimal, holidayTipDecimal, combinedDecimal, wholeDollarPayout,
      breakdownBills (wholeDollarPayout : ℚ)⟩

/-- The payout policy the spec describes for the two-period variant, written
from the spec's words: round once, on the combined decimal total of the two
independently computed period tips. -/
def specSumThenRound (truncNormalRate truncHolidayRate normalHours holidayHours : ℚ) : ℤ :=
  let combined :=
    roundToTwoDecimals (truncNormalRate * normalHours) +
      roundToTwoDecimals (truncHolidayRate * holidayHours)
  if 0 < combined then jsRound (combined + eps) else 0

/-- The rejected alternative policy, written from the spec's words: round each
period tip to whole dollars first, then sum. -/
def specRoundThenSum (truncNormalRate truncHolidayRate normalHours holidayHours : ℚ) : ℤ :=
  let nt := roundToTwoDecimals (truncNormalRate * normalHours)
  let ht := roundToTwoDecimals (truncHolidayRate * holidayHours)
  (if 0 < nt then jsRound (nt + eps) else 0) + (if 0 < ht then jsRound (ht + eps) else 0)

/-- `normalizeNameForMatch` from part_002 lines 395-400 (textually identical
to `normalizeNameKey` but scoped inside `matchPartners`; same no-op `.trim()`
omitted). -/
def normalizeNameForMatch (name : String) : String :=
  String.mk ((name.toList.map Char.toLower).filter fun c => decide ('a' ≤ c ∧ c ≤ 'z'))

/-- JS `hay.includes(needle)`: contiguous-substring test. -/
def strIncludesAux (needle : List Char) : List Char → Bool
  | [] => needle.isEmpty
  | c :: rest => needle.isPrefixOf (c :: rest) || strIncludesAux needle rest

/-- JS `hay.includes(needle)` on strings. -/
def strIncludes (hay needle : String) : Bool :=
  strIncludesAux needle.toList hay.toList

/-- One matched row of part_002's `matchPartners`. -/
structure MatchEntry where
  name : String
  regular : Option Partner
  holiday : Option Partner
deriving Repr, DecidableEq

/-- The inner best-match scan of `matchPartners` (part_002 lines 405-429):
walk the holiday list, skipping already-used indices; an exact
normalized-name match breaks out immediately with score 1; otherwise a
containment match scores `min(len)/max(len)` and replaces the best candidate
when the score beats both the current best and `0.7`. -/
def scanBest (norm1 : String) : List (ℕ × Partner) → List ℕ → Option (ℕ × Partner) × ℚ →
    Option (ℕ × Partner) × ℚ
  | [], _, acc => acc
  | (i, p2) :: rest, used, (best, bestScore) =>
    if i ∈ used then scanBest norm1 rest used (best, bestScore)
    else
      let norm2 := normalizeNameForMatch p2.name
      if norm1 = norm2 then (some (i, p2), 1)
      else if strIncludes norm1 norm2 || strIncludes norm2 norm1 then
        let score : ℚ := (min norm1.length norm2.length : ℚ) / (max norm1.length norm2.length : ℚ)
        if bestScore < score ∧ (7 / 10 : ℚ) < score then scanBest norm1 rest used (some (i, p2), score)
        else scanBest norm1 rest used (best, bestScore)
      else scanBest norm1 rest used (best, bestScore)

/-- The regular-partner loop of `matchPartners` (part_002 lines 403-445),
threading the `usedHoliday` index set. -/
def matchLoop (holidayEnum : List (ℕ × Partner)) :
    List Partner → List ℕ → List MatchEntry × List ℕ
  | [], used => ([], used)
  | p1 :: rest, used =>
    let norm1 := normalizeNameForMatch p1.name
    match scanBest norm1 holidayEnum used (none, 0) with
    | (some (i, p2), _) =>
      let next := matchLoop holidayEnum rest (used ++ [i])
      (⟨p1.name, some p1, some p2⟩ :: next.1, next.2)
    | (none, _) =>
      let next := matchLoop holidayEnum rest used
      (⟨p1.name, some p1, none⟩ :: next.1, next.2)

/-- `matchPartners` from part_002 lines 391-460: fuzzy name matching of the
two periods, followed by the unmatched holiday partners. -/
def matchPartners (regularPartnersList holidayPartnersList : List Partner) : List MatchEntry :=
  let loop := matchLoop holidayPartnersList.enum regularPartnersList []
  loop.1 ++
    (holidayPartnersList.enum.filter fun e => ¬ e.1 ∈ loop.2).map
      fun e => ⟨e.2.name, none, some e.2⟩

/-- One greedy while-loop of `redistributeBills`
(`while (remaining >= den && remainingBills.d > 0) { ... }`): returns the
notes taken, the still-owed amount, and the notes left.  Each iteration
consumes one note, so the recursion is on the available count. -/
def allocLoop (den remaining : ℤ) : ℕ → ℕ × ℤ × ℕ
  | 0 => (0, remaining, 0)
  | avail + 1 =>
    if den ≤ remaining then
      let r := allocLoop den (remaining - den) avail
      (r.1 + 1, r.2.1, r.2.2)
    else (0, remaining, avail + 1)

/-- The per-partner body of `redistributeBills` (part_000 lines 1209-1271,
identical in part_001 lines 1585-1647): four greedy loops for $20/$10/$5/$1,
then the single next-larger-denomination overpayment compensation.  Returns
the partner's new breakdown, the uncovered remainder, and the remaining
inventory. -/
def allocPartner (payout : ℤ) (bills : Bills) : Bills × ℤ × Bills :=
  let t := allocLoop 20 payout bills.twenties
  let te := allocLoop 10 t.2.1 bills.tens
  let f := allocLoop 5 te.2.1 bills.fives
  let o := allocLoop 1 f.2.1 bills.ones
  let breakdown : Bills := ⟨t.1, te.1, f.1, o.1⟩
  let remaining := o.2.1
  let rem : Bills := ⟨t.2.2, te.2.2, f.2.2, o.2.2⟩
  if 0 < remaining then
    if remaining ≤ 4 ∧ 0 < rem.fives then
      (⟨breakdown.twenties, breakdown.tens, breakdown.fives + 1, breakdown.ones⟩, 0,
        ⟨rem.twenties, rem.tens, rem.fives - 1, rem.ones⟩)
    else if remaining ≤ 9 ∧ 0 < rem.tens then
      (⟨breakdown.twenties, breakdown.tens + 1, breakdown.fives, breakdown.ones⟩, 0,
        ⟨rem.twenties, rem.tens - 1, rem.fives, rem.ones⟩)
    else if remaining ≤ 19 ∧ 0 < rem.twenties then
      (⟨breakdown.twenties + 1, breakdown.tens, breakdown.fives, breakdown.ones⟩, 0,
        ⟨rem.twenties - 1, rem.tens, rem.fives, rem.ones⟩)
    else (breakdown, remaining, rem)
  else (breakdown, remaining, rem)

/-- Stable descending insertion used to model the JS stable
`sort((a, b) => b.wholeDollarPayout - a.wholeDollarPayout)`. -/
def insertPayoutDesc (r : CalcResult) : List CalcResult → List CalcResult
  | [] => [r]
  | x :: xs =>
    if x.wholeDollarPayout ≤ r.wholeDollarPayout then r :: x :: xs
    else x :: insertPayoutDesc r xs

/-- The stable sort by descending payout of `redistributeBills` (JS
`Array.prototype.sort` is stable, and a stable sort for a total preorder is
unique, so any stable model is exact). -/
def sortPayoutDesc (l : List CalcResult) : List CalcResult :=
  l.foldr insertPayoutDesc []

/-- The partner loop of `redistributeBills`, threading the remaining
inventory; each row is the partner, the bills assigned to it, and its
`adjustedPayout` (`wholeDollarPayout - remaining`). -/
def redistLoop : List CalcResult → Bills → List (CalcResult × Bills × ℤ) × Bills
  | [], rem => ([], rem)
  | p :: rest, rem =>
    let a := allocPartner p.wholeDollarPayout rem
    let next := redistLoop rest a.2.2
    ((p, a.1, p.wholeDollarPayout - a.2.1) :: next.1, next.2)

/-- `redistributeBills` from part_000 lines 1171-1276 / part_001 lines
1547-1652 as a pure function of the prior results and the (hand-edited) bill
inventory: sort by payout descending, then allocate greedily per partner.
Returns the per-partner rows and the leftover inventory; the source's
`usedBills` accumulator is recovered as the componentwise sum of the assigned
breakdowns. -/
def redistributeBills (lastCalculationResults : List CalcResult) (availableBills : Bills) :
    List (CalcResult × Bills × ℤ) × Bills :=
  redistLoop (sortPayoutDesc lastCalculationResults) availableBills

/-- The source's `usedBills` accumulator: the componentwise total of all
assigned breakdowns (the running sum is order-independent, so it is defined
by structural recursion over the emitted rows). -/
def usedOf : List (CalcResult × Bills × ℤ) → Bills
  | [] => ⟨0, 0, 0, 0⟩
  | r :: rows =>
    let u := usedOf rows
    ⟨r.2.1.twenties + u.twenties, r.2.1.tens + u.tens,
      r.2.1.fives + u.fives, r.2.1.ones + u.ones⟩

/-- The normal-period hours recorded under key `k` (0 when absent). -/
def nhOf (m : PartnerMap) (k : String) : ℚ :=
  ((mapLookup m k).map (·.normalHours)).getD 0

/-- The holiday-period hours recorded under key `k` (0 when absent). -/
def hhOf (m : PartnerMap) (k : String) : ℚ :=
  ((mapLookup m k).map (·.holidayHours)).getD 0

/-- `partnerMap.has(k)`. -/
def hasKeyB (m : PartnerMap) (k : String) : Bool :=
  m.any fun e => e.1 == k

/-- JS `\s` on the ASCII range: space, tab, newline, carriage return,
vertical tab, form feed. -/
def jsIsSpace (c : Char) : Bool :=
  c == ' ' || c == '\t' || c == '\n' || c == '\r' || c == '\x0b' || c == '\x0c'

/-- Case-insensitive literal matching (the regex `i` flag on an ASCII
literal): `lit` is given lower-case; consumes it from the front of `s`. -/
def matchLitCI : List Char → List Char → Option (List Char)
  | [], s => some s
  | _ :: _, [] => none
  | c :: cs, x :: xs => if x.toLower == c then matchLitCI cs xs else none

/-- Greedy `\s*`. -/
def dropSpaces (s : List Char) : List Char := s.dropWhile jsIsSpace

/-- Greedy `\d+` (at least one digit); `none` when no digit is present. -/
def matchDigits1 : List Char → Option (List Char)
  | [] => none
  | x :: xs => if x.isDigit then some (xs.dropWhile Char.isDigit) else none

/-- Greedy `[^\n]*`: consume to the end of the line. -/
def dropToLineEnd (s : List Char) : List Char := s.dropWhile fun c => !(c == '\n')

/-- `/Store\s*Number[:#]?\s*\d+/i` matched at the front of `s`.  Greedy
commitment is exact here: each greedy piece is followed by a piece whose
first character it can never absorb. -/
def matchStoreNumberPat (s : List Char) : Option (List Char) :=
  (matchLitCI "store".toList s).bind fun s =>
  (matchLitCI "number".toList (dropSpaces s)).bind fun s =>
  let s := match s with
    | ':' :: xs => xs
    | '#' :: xs => xs
    | _ => s
  matchDigits1 (dropSpaces s)

/-- `/Time\s*Period:[^\n]*/i` matched at the front of `s`. -/
def matchTimePeriodPat (s : List Char) : Option (List Char) :=
  (matchLitCI "time".toList s).bind fun s =>
  (matchLitCI "period:".toList (dropSpaces s)).map dropToLineEnd

/-- `/Executed\s*By:[^\n]*/i` matched at the front of `s`. -/
def matchExecutedByPat (s : List Char) : Option (List Char) :=
  (matchLitCI "executed".toList s).bind fun s =>
  (matchLitCI "by:".toList (dropSpaces s)).map dropToLineEnd

/-- `/Executed\s*On:[^\n]*/i` matched at the front of `s`. -/
def matchExecutedOnPat (s : List Char) : Option (List Char) :=
  (matchLitCI "executed".toList s).bind fun s =>
  (matchLitCI "on:".toList (dropSpaces s)).map dropToLineEnd

/-- `/Data\s*Disclaimer[^\n]*/i` matched at the front of `s`. -/
def matchDataDisclaimerPat (s : List Char) : Option (List Char) :=
  (matchLitCI "data".toList s).bind fun s =>
  (matchLitCI "disclaimer".toList (dropSpaces s)).map dropToLineEnd

/-- `/Includes\s*all\s*updates[^\n]*/i` matched at the front of `s`. -/
def matchIncludesAllPat (s : List Char) : Option (List Char) :=
  (matchLitCI "includes".toList s).bind fun s =>
  (matchLitCI "all".toList (dropSpaces s)).bind fun s =>
  (matchLitCI "updates".toList (dropSpaces s)).map dropToLineEnd

/-- `/Tip\s*Distribution[^\n]*/i` matched at the front of `s`. -/
def matchTipDistributionPat (s : List Char) : Option (List Char) :=
  (matchLitCI "tip".toList s).bind fun s =>
  (matchLitCI "distribution".toList (dropSpaces s)).map dropToLineEnd

/-- `/Home\s*Store[^\n]*/i` matched at the front of `s`. -/
def matchHomeStorePat (s : List Char) : Option (List Char) :=
  (matchLitCI "home".toList s).bind fun s =>
  (matchLitCI "store".toList (dropSpaces s)).map dropToLineEnd

/-- JS `String.replace(pattern, ' ')` with the `g` flag: scan left to right,
replace each non-overlapping match by one space and continue after it.  Fuel
is the string length; every pattern above consumes at least one character, so
the fuel never runs out. -/
def replaceGo (matchAt : List Char → Option (List Char)) : ℕ → List Char → List Char
  | 0, s => s
  | _ + 1, [] => []
  | fuel + 1, c :: rest =>
    match matchAt (c :: rest) with
    | some rest2 => ' ' :: replaceGo matchAt fuel rest2
    | none => c :: replaceGo matchAt fuel rest

/-- Global replace-by-space over a whole string. -/
def replaceAll (matchAt : List Char → Option (List Char)) (s : List Char) : List Char :=
  replaceGo matchAt s.length s

/-- The `METADATA_PATTERNS` array (part_000 lines 15-24), in source order. -/
def METADATA_PATTERNS : List (List Char → Option (List Char)) :=
  [matchStoreNumberPat, matchTimePeriodPat, matchExecutedByPat, matchExecutedOnPat,
    matchDataDisclaimerPat, matchIncludesAllPat, matchTipDistributionPat, matchHomeStorePat]

/-- The pattern phase of `stripMetadataTokens`: apply all eight replacements
in order. -/
def stripPass (s : List Char) : List Char :=
  METADATA_PATTERNS.foldl (fun acc pat => replaceAll pat acc) s

/-- JS `replace(/\s+/g, ' ')`: collapse every whitespace run to one space. -/
def collapseWs : List Char → List Char
  | [] => []
  | [c] => if jsIsSpace c then [' '] else [c]
  | c :: d :: rest =>
    if jsIsSpace c then
      if jsIsSpace d then collapseWs (d :: rest)
      else ' ' :: collapseWs (d :: rest)
    else c :: collapseWs (d :: rest)

/-- JS `String.trim()` (ASCII whitespace). -/
def jsTrim (s : List Char) : List Char :=
  ((s.dropWhile jsIsSpace).reverse.dropWhile jsIsSpace).reverse

/-- `stripMetadataTokens` from part_000 lines 38-52: the `!text` guard, the
eight pattern replacements in order, whitespace collapsing, and the final
trim. -/
def stripMetadataTokens (text : String) : String :=
  if text.isEmpty then ""
  else String.mk (jsTrim (collapseWs (stripPass text.toList)))

/-- JS `split(/\r?\n/)`. -/
def splitLinesGo (cur : List Char) : List Char → List (List Char)
  | [] => [cur.reverse]
  | '\r' :: '\n' :: rest => cur.reverse :: splitLinesGo [] rest
  | '\n' :: rest => cur.reverse :: splitLinesGo [] rest
  | c :: rest => splitLinesGo (c :: cur) rest

/-- JS `split(/\r?\n/)` on a whole string. -/
def splitLines (s : List Char) : List (List Char) := splitLinesGo [] s

/-- JS `split(/\s+/)`: split on whitespace runs (a leading or trailing run
contributes an empty field, as in JS).  The flag tracks being inside a
separator run. -/
def splitWsGo : Bool → List Char → List Char → List (List Char)
  | _, cur, [] => [cur.reverse]
  | inSep, cur, c :: rest =>
    if jsIsSpace c then
      if inSep then splitWsGo true cur rest
      else cur.reverse :: splitWsGo true [] rest
    else splitWsGo false (c :: cur) rest

/-- JS `split(/\s+/)` on a whole token list. -/
def splitWs (s : List Char) : List (List Char) := splitWsGo false [] s

/-- The number of leading decimal digits. -/
def leadDigits (s : List Char) : ℕ := (s.takeWhile Char.isDigit).length

/-- `^\d+$`. -/
def isAllDigits (s : List Char) : Bool := !s.isEmpty && s.all Char.isDigit

/-- `^\d{5}$`. -/
def is5Digit (s : List Char) : Bool := s.length == 5 && s.all Char.isDigit

/-- `^US\d+$/i`. -/
def isUSNum : List Char → Bool
  | u :: s :: rest => u.toLower == 'u' && s.toLower == 's' && isAllDigits rest
  | _ => false

/-- `^\d{6,}$`. -/
def isDigits6 (s : List Char) : Bool := decide (6 ≤ s.length) && s.all Char.isDigit

/-- `^\d+\.?\d*$`: the hours-token shape of patterns 1-3/5 and the columnar
parser. -/
def isHoursTok (s : List Char) : Bool :=
  let intd := s.takeWhile Char.isDigit
  let rest := s.dropWhile Char.isDigit
  !intd.isEmpty &&
    match rest with
    | [] => true
    | '.' :: r2 => r2.all Char.isDigit
    | _ => false

/-- `^\d+\.\d+$`: a decimal with a mandatory fractional part. -/
def isDecimalTok (s : List Char) : Bool :=
  let intd := s.takeWhile Char.isDigit
  let rest := s.dropWhile Char.isDigit
  !intd.isEmpty &&
    match rest with
    | '.' :: r2 => !r2.isEmpty && r2.all Char.isDigit
    | _ => false

/-- Numeric value of a digit string. -/
def digitsVal (ds : List Char) : ℕ :=
  ds.foldl (fun a c => a * 10 + (c.toNat - '0'.toNat)) 0

/-- JS `parseFloat` restricted to the `[0-9.\-]` alphabet the callers feed
it: optional leading minus, integer digits, optional fraction; anything after
the first unparsable character is ignored; `none` models `NaN`. -/
def jsParseFloat (s : List Char) : Option ℚ :=
  let (neg, s) := match s with
    | '-' :: rest => (true, rest)
    | _ => (false, s)
  let intd := s.takeWhile Char.isDigit
  let rest := s.dropWhile Char.isDigit
  let fracd := match rest with
    | '.' :: r2 => r2.takeWhile Char.isDigit
    | _ => []
  let hasDot := match rest with
    | '.' :: _ => true
    | _ => false
  if intd.isEmpty ∧ (¬hasDot = true ∨ fracd.isEmpty) then none
  else
    let v : ℚ := (digitsVal intd : ℚ) + (digitsVal fracd : ℚ) / ((10 : ℚ) ^ fracd.length)
    some (if neg then -v else v)

/-- Anchored case-insensitive word sequence with `\s*` gaps; `colonTail`
appends a literal suffix to the final word (for `hours:`-style patterns). -/
def matchWordSeq : List (List Char) → List Char → Option (List Char)
  | [], s => some s
  | [w], s => matchLitCI w s
  | w :: ws, s => (matchLitCI w s).bind fun r => matchWordSeq ws (dropSpaces r)

/-- `^home$|^partner\s*name$|^partner\s*number$|^total\s*tippable\s*hours$|^store$|^total\s*tippable\s*hours:$`
(all case-insensitive), the columnar header patterns. -/
def isHeaderLine (l : List Char) : Bool :=
  (matchWordSeq ["home".toList] l == some []) ||
  (matchWordSeq ["partner".toList, "name".toList] l == some []) ||
  (matchWordSeq ["partner".toList, "number".toList] l == some []) ||
  (matchWordSeq ["total".toList, "tippable".toList, "hours".toList] l == some []) ||
  (matchWordSeq ["store".toList] l == some []) ||
  (matchWordSeq ["total".toList, "tippable".toList, "hours:".toList] l == some [])

/-- `^total\s*tippable\s*hours:\s*[\d.]+$/i`, the columnar summary line. -/
def isSummaryLine (l : List Char) : Bool :=
  match matchWordSeq ["total".toList, "tippable".toList, "hours:".toList] l with
  | some r =>
    let r2 := dropSpaces r
    !r2.isEmpty && r2.all fun c => c.isDigit || c == '.'
  | none => false

/-- The group-of-four name validation of `parseColumnarFormat` (part_000
lines 578-582). -/
def isColValidName (nameLine : List Char) : Bool :=
  decide (1 < nameLine.length) && !isAllDigits nameLine && !isUSNum nameLine &&
    !isHeaderLine nameLine

/-- `^US\d+$/i || ^\d{6,}$`, the partner-number validation. -/
def isValidPartnerNum (l : List Char) : Bool := isUSNum l || isDigits6 l

/-- The alternative-pattern name test of `parseColumnarFormat` (part_000
lines 605-610). -/
def isAltName (line : List Char) : Bool :=
  decide (2 < line.length) && !isHoursTok line && !isUSNum line && !is5Digit line &&
    !isHeaderLine line && !isSummaryLine line

/-- The scanning loop of `parseColumnarFormat` (part_000 lines 549-635):
groups of four (store/name/number/hours) or three (name/number/hours) lines.
Fuel is the number of lines; every step consumes at least one line. -/
def columnarLoop : ℕ → List (List Char) → List Partner
  | 0, _ => []
  | _ + 1, [] => []
  | fuel + 1, line :: rest =>
    if isSummaryLine line then []
    else if isHeaderLine line then columnarLoop fuel rest
    else if is5Digit line then
      match rest with
      | nameLine :: partnerNumLine :: hoursLine :: rest2 =>
        if isColValidName nameLine && isValidPartnerNum partnerNumLine &&
            isHoursTok hoursLine then
          let hours := (jsParseFloat hoursLine).getD 0
          (if 0 < hours ∧ hours < 200 then
            [⟨String.mk (jsTrim nameLine), String.mk partnerNumLine, hours⟩]
          else []) ++ columnarLoop fuel rest2
        else columnarLoop fuel rest
      | _ => columnarLoop fuel rest
    else if isAltName line then
      match rest with
      | partnerNumLine :: hoursLine :: rest2 =>
        if isValidPartnerNum partnerNumLine && isHoursTok hoursLine then
          let hours := (jsParseFloat hoursLine).getD 0
          if 0 < hours ∧ hours < 200 then
            ⟨String.mk (jsTrim line), String.mk partnerNumLine, hours⟩ ::
              columnarLoop fuel rest2
          else columnarLoop fuel rest
        else columnarLoop fuel rest
      | _ => columnarLoop fuel rest
    else columnarLoop fuel rest

/-- `parseColumnarFormat` from part_000 lines 513-639: split into trimmed
non-empty lines, find the first non-header five-digit store line, then scan
for field groups. -/
def parseColumnarFormat (text : String) : List Partner :=
  if text.isEmpty then []
  else
    let lines := ((splitLines text.toList).map jsTrim).filter fun l => 0 < l.length
    let dataStartIndex :=
      (lines.findIdx? fun l => !isHeaderLine l && is5Digit l).getD 0
    let dataLines := lines.drop dataStartIndex
    columnarLoop dataLines.length dataLines

/-- The lazy-name split `^(.+?)tail` of the line regexes: scan for the
earliest split of the line into a non-empty name prefix (no newline) and a
suffix accepted by `tailMatch` — exactly the lazy `(.+?)` search order. -/
def lazyNameSplit {α : Type} (tailMatch : List Char → Option α) :
    List Char → List Char → Option (List Char × α)
  | _, [] => none
  | acc, c :: rest =>
    if c == '\n' then none
    else
      match tailMatch rest with
      | some a => some (acc ++ [c], a)
      | none => lazyNameSplit tailMatch (acc ++ [c]) rest

/-- `\s+(US\d+)\s+(\d+\.?\d*)$`: the tail of patterns 1 and 2, returning the
partner-number and hours tokens. -/
def matchTailUSNum (t : List Char) : Option (List Char × List Char) :=
  match t with
  | c :: rest =>
    if jsIsSpace c then
      match rest.dropWhile jsIsSpace with
      | u :: s1 :: t2 =>
        if u.toLower == 'u' && s1.toLower == 's' then
          let ds := t2.takeWhile Char.isDigit
          let t3 := t2.dropWhile Char.isDigit
          if ds.isEmpty then none
          else
            match t3 with
            | c2 :: rest2 =>
              if jsIsSpace c2 then
                let t4 := rest2.dropWhile jsIsSpace
                if isHoursTok t4 then some (u :: s1 :: ds, t4) else none
              else none
            | [] => none
        else none
      | _ => none
    else none
  | [] => none

/-- `\s+(\d{6,})\s+(\d+\.?\d*)$`: the tail of pattern 3. -/
def matchTailNum6 (t : List Char) : Option (List Char × List Char) :=
  match t with
  | c :: rest =>
    if jsIsSpace c then
      let t1 := rest.dropWhile jsIsSpace
      let ds := t1.takeWhile Char.isDigit
      let t2 := t1.dropWhile Char.isDigit
      if decide (6 ≤ ds.length) then
        match t2 with
        | c2 :: rest2 =>
          if jsIsSpace c2 then
            let t3 := rest2.dropWhile jsIsSpace
            if isHoursTok t3 then some (ds, t3) else none
          else none
        | [] => none
      else none
    else none
  | [] => none

/-- `\s+(\d+\.\d+)$`: the tail of pattern 4. -/
def matchTailHours (t : List Char) : Option (List Char) :=
  match t with
  | c :: rest =>
    if jsIsSpace c then
      let t1 := rest.dropWhile jsIsSpace
      if isDecimalTok t1 then some t1 else none
    else none
  | [] => none

/-- Pattern 1, `^(\d{5})\s+(.+?)\s+(US\d+)\s+(\d+\.?\d*)$/i` (part_000 line
736): five digits, at least one space, then the pattern-2 body.  The name
group absorbs any surplus whitespace after the first space; the caller trims
it, so captures agree with the regex. -/
def matchPattern1 (line : List Char) : Option (List Char × List Char × List Char) :=
  let d5 := line.take 5
  if d5.length == 5 && d5.all Char.isDigit then
    match line.drop 5 with
    | c :: rest => if jsIsSpace c then lazyNameSplit matchTailUSNum [] rest else none
    | [] => none
  else none

/-- Pattern 2, `^(.+?)\s+(US\d+)\s+(\d+\.?\d*)$/i` (part_000 line 748). -/
def matchPattern2 (line : List Char) : Option (List Char × List Char × List Char) :=
  lazyNameSplit matchTailUSNum [] line

/-- Pattern 3, `^(.+?)\s+(\d{6,})\s+(\d+\.?\d*)$` (part_000 line 760). -/
def matchPattern3 (line : List Char) : Option (List Char × List Char × List Char) :=
  lazyNameSplit matchTailNum6 [] line

/-- Pattern 4, `^(.+?)\s+(\d+\.\d+)$` with its validation (part_000 lines
772-783): the name must be non-numeric and the hours must lie in (0, 200). -/
def parsePattern4 (cleanedLine : List Char) : Option Partner :=
  match lazyNameSplit matchTailHours [] cleanedLine with
  | some (nameRaw, hoursTok) =>
    let nameCandidate := jsTrim nameRaw
    let hours := (jsParseFloat hoursTok).getD 0
    if !nameCandidate.isEmpty && !isAllDigits nameCandidate &&
        (0 < hours ∧ hours < 200 : Prop) then
      some ⟨String.mk nameCandidate, "", hours⟩
    else none
  | none => none

/-- The lower-cased, letters-only form of a token, used for the metadata
skip-set test. -/
def cleanTok (t : List Char) : List Char :=
  (t.map Char.toLower).filter fun c => decide ('a' ≤ c ∧ c ≤ 'z')

/-- The `metadataTokens` set (part_000 lines 27-31). -/
def metadataTokens : List String :=
  ["store", "number", "time", "period", "executed", "by", "on", "data",
    "disclaimer", "includes", "all", "updates", "tip", "distribution",
    "home", "partner", "name", "tippable", "hours", "total"]

/-- `nameTokens.join(' ')`. -/
def joinSpace (toks : List (List Char)) : List Char := List.intercalate [' '] toks

/-- Pattern 5, the flexible token-based parse (part_000 lines 785-824). -/
def parsePattern5 (cleanedLine : List Char) : Option Partner :=
  let tokens := splitWs cleanedLine
  if 2 ≤ tokens.length then
    match tokens.getLast? with
    | some lastToken =>
      if isHoursTok lastToken then
        let hours := (jsParseFloat lastToken).getD 0
        if (0 < hours ∧ hours < 200 : Prop) then
          let nameTokens := tokens.dropLast.filter fun tok =>
            let cleaned := cleanTok tok
            if cleaned.isEmpty then true
            else !(metadataTokens.any fun m => m.toList == cleaned)
          let (number, nameTokens) :=
            match nameTokens.getLast? with
            | some lastNameToken =>
              if isUSNum lastNameToken || isDigits6 lastNameToken then
                (lastNameToken, nameTokens.dropLast)
              else (([] : List Char), nameTokens)
            | none => (([] : List Char), nameTokens)
          let nameTokens :=
            match nameTokens with
            | first :: restToks => if is5Digit first then restToks else nameTokens
            | [] => nameTokens
          let name := jsTrim (joinSpace nameTokens)
          if !name.isEmpty && decide (1 < name.length) && decide (nameTokens.length ≤ 6) &&
              !isAllDigits name then
            some ⟨String.mk name, String.mk number, hours⟩
          else none
        else none
      else none
    | none => none
  else none

/-- The per-line pattern cascade of `parseOcrToPartners` (part_000 lines
734-824), first acceptable pattern wins.  Patterns 1-3 accept any finite
parsed hours value; only patterns 4 and 5 bound the hours. -/
def parseLinePatterns (cleanedLine : List Char) : Option Partner :=
  match matchPattern1 cleanedLine with
  | some (nameRaw, numTok, hoursTok) =>
    let name := jsTrim nameRaw
    if !name.isEmpty then
      some ⟨String.mk name, String.mk numTok, (jsParseFloat hoursTok).getD 0⟩
    else fallback2 cleanedLine
  | none => fallback2 cleanedLine
where
  fallback2 (cleanedLine : List Char) : Option Partner :=
    match matchPattern2 cleanedLine with
    | some (nameRaw, numTok, hoursTok) =>
      let name := jsTrim nameRaw
      if !name.isEmpty && !is5Digit name then
        some ⟨String.mk name, String.mk numTok, (jsParseFloat hoursTok).getD 0⟩
      else fallback3 cleanedLine
    | none => fallback3 cleanedLine
  fallback3 (cleanedLine : List Char) : Option Partner :=
    match matchPattern3 cleanedLine with
    | some (nameRaw, numTok, hoursTok) =>
      let name := jsTrim nameRaw
      if !name.isEmpty then
        some ⟨String.mk name, String.mk numTok, (jsParseFloat hoursTok).getD 0⟩
      else fallback45 cleanedLine
    | none => fallback45 cleanedLine
  fallback45 (cleanedLine : List Char) : Option Partner :=
    match parsePattern4 cleanedLine with
    | some e => some e
    | none => parsePattern5 cleanedLine

/-- Unanchored regex `.test`: some suffix position matches. -/
def existsPos (matchAt : List Char → Bool) : List Char → Bool
  | [] => matchAt []
  | c :: rest => matchAt (c :: rest) || existsPos matchAt rest

/-- `tippable.*hours` around a position: after `tippable`, search for
`hours` without crossing a newline (`.` does not match `\n`). -/
def searchNoNl (lit : List Char) : List Char → Bool
  | [] => (matchLitCI lit []).isSome
  | c :: rest =>
    (matchLitCI lit (c :: rest)).isSome || (if c == '\n' then false else searchNoNl lit rest)

/-- `\d{1,2}\/\d{1,2}\/\d{2,4}` at a position (with nothing required
after). -/
def matchDateAt (s : List Char) : Bool :=
  let r1 := leadDigits s
  if 1 ≤ r1 ∧ r1 ≤ 2 then
    match s.drop r1 with
    | '/' :: s2 =>
      let r2 := leadDigits s2
      if 1 ≤ r2 ∧ r2 ≤ 2 then
        match s2.drop r2 with
        | '/' :: s3 => decide (2 ≤ leadDigits s3)
        | _ => false
      else false
    | _ => false
  else false

/-- `\d{1,2}\/\d{1,2}\/\d{2,4}\s*-\s*\d{1,2}\/\d{1,2}\/\d{2,4}` at a
position: the middle year run must be consumed whole (2-4 digits) before the
dash. -/
def matchDateRangeAt (s : List Char) : Bool :=
  let r1 := leadDigits s
  if 1 ≤ r1 ∧ r1 ≤ 2 then
    match s.drop r1 with
    | '/' :: s2 =>
      let r2 := leadDigits s2
      if 1 ≤ r2 ∧ r2 ≤ 2 then
        match s2.drop r2 with
        | '/' :: s3 =>
          let r3 := leadDigits s3
          if 2 ≤ r3 ∧ r3 ≤ 4 then
            match dropSpaces (s3.drop r3) with
            | '-' :: s4 => matchDateAt (dropSpaces s4)
            | _ => false
          else false
        | _ => false
      else false
    | _ => false
  else false

/-- `\d{2}:\d{2}:\d{2}` at a position. -/
def matchTimeAt : List Char → Bool
  | a :: b :: ':' :: c :: d :: ':' :: e :: f :: _ =>
    a.isDigit && b.isDigit && c.isDigit && d.isDigit && e.isDigit && f.isDigit
  | _ => false

/-- The `skipPatterns` header/metadata line tests of `parseOcrToPartners`
(part_000 lines 678-693). -/
def matchesSkipPattern (line : List Char) : Bool :=
  existsPos (fun s => (matchWordSeq ["partner".toList, "name".toList] s).isSome) line ||
  existsPos (fun s => (matchWordSeq ["home".toList, "store".toList] s).isSome) line ||
  existsPos (fun s =>
    match matchLitCI "tippable".toList s with
    | some r => searchNoNl "hours".toList r
    | none => false) line ||
  existsPos (fun s => (matchWordSeq ["total".toList, "tippable".toList] s).isSome) line ||
  existsPos (fun s => (matchWordSeq ["time".toList, "period".toList] s).isSome) line ||
  existsPos (fun s => (matchLitCI "executed".toList s).isSome) line ||
  existsPos (fun s => (matchWordSeq ["store".toList, "number".toList] s).isSome) line ||
  existsPos (fun s => (matchWordSeq ["data".toList, "disclaimer".toList] s).isSome) line ||
  existsPos (fun s => (matchWordSeq ["tip".toList, "distribution".toList] s).isSome) line ||
  (match matchLitCI "total".toList (dropSpaces line) with
    | some r => (dropSpaces r).isEmpty
    | none => false) ||
  existsPos
    (fun s => (matchWordSeq ["includes".toList, "all".toList, "updates".toList] s).isSome)
    line ||
  matchDateAt line ||
  existsPos matchDateRangeAt line ||
  existsPos matchTimeAt line

/-- The long-merged-metadata-line test (part_000 lines 714, 720). -/
def isMergedMetadataLine (line : List Char) : Bool :=
  decide (120 < line.length) &&
    (existsPos (fun s => (matchLitCI "executed".toList s).isSome) line ||
      existsPos (fun s => (matchLitCI "time period".toList s).isSome) line ||
      existsPos (fun s => (matchLitCI "store number".toList s).isSome) line ||
      existsPos (fun s => (matchLitCI "data disclaimer".toList s).isSome) line)

/-- `addEntry` of `parseOcrToPartners` (part_000 lines 666-675): drop
too-short names and case-insensitive duplicate names. -/
def addEntry (parsed : List Partner) (entry : Partner) : List Partner :=
  if entry.name.toList.length < 2 then parsed
  else if parsed.any fun p =>
      jsTrim (p.name.toList.map Char.toLower) == jsTrim (entry.name.toList.map Char.toLower) then
    parsed
  else parsed ++ [entry]

/-- The per-line loop of `parseOcrToPartners` (part_000 lines 695-825). -/
def ocrLineLoop (parsed : List Partner) : List (List Char) → List Partner
  | [] => parsed
  | rawLine :: rest =>
    let line := jsTrim rawLine
    if line.isEmpty then ocrLineLoop parsed rest
    else if line.length < 3 then ocrLineLoop parsed rest
    else if matchesSkipPattern line then ocrLineLoop parsed rest
    else if isMergedMetadataLine line then ocrLineLoop parsed rest
    else
      let cleanedLine := (stripMetadataTokens (String.mk line)).toList
      if cleanedLine.isEmpty || cleanedLine.length < 3 then ocrLineLoop parsed rest
      else
        match parseLinePatterns cleanedLine with
        | some entry => ocrLineLoop (addEntry parsed entry) rest
        | none => ocrLineLoop parsed rest

/-- The token-bucket loop of `parseByTokenBuckets` (part_000 lines 66-114),
carrying the accumulated entries, name tokens, and partner number. -/
def tokenBucketGo (entries : List Partner) (nameTokens : List (List Char))
    (number : List Char) : List (List Char) → List Partner
  | [] => entries
  | token :: rest =>
    let cleanedToken := cleanTok token
    if metadataTokens.any fun m => m.toList == cleanedToken then
      tokenBucketGo entries nameTokens number rest
    else if isUSNum token || isDigits6 token then
      tokenBucketGo entries nameTokens token rest
    else if isDecimalTok token &&
        (0 < (jsParseFloat token).getD 0 ∧ (jsParseFloat token).getD 0 < 200 : Prop) then
      let hours := (jsParseFloat token).getD 0
      let name := jsTrim (joinSpace nameTokens)
      let entries :=
        if !nameTokens.isEmpty && !name.isEmpty && decide (1 < name.length) &&
            !isAllDigits name then
          entries ++ [⟨String.mk name, String.mk number, hours⟩]
        else entries
      tokenBucketGo entries [] [] rest
    else if is5Digit token then
      tokenBucketGo entries nameTokens number rest
    else if !token.isEmpty && !isAllDigits token then
      tokenBucketGo entries (nameTokens ++ [token]) number rest
    else tokenBucketGo entries nameTokens number rest

/-- `parseByTokenBuckets` from part_000 lines 58-117 (called with the
module's `metadataTokens` set). -/
def parseByTokenBuckets (text : List Char) : List Partner :=
  if text.isEmpty then []
  else tokenBucketGo [] [] [] (splitWs text)

/-- `parseOcrToPartners` from part_000 lines 650-838: columnar first, then
the stripped text line by line through the pattern cascade, then the
token-bucket fallback. -/
def parseOcrToPartners (text : String) : List Partner :=
  let columnarResult := parseColumnarFormat text
  if !columnarResult.isEmpty then columnarResult
  else
    let metadataStrip := stripMetadataTokens text
    let lines := splitLines metadataStrip.toList
    let parsed := ocrLineLoop [] lines
    if parsed.isEmpty then (parseByTokenBuckets metadataStrip.toList).foldl addEntry parsed
    else parsed

/-- `parseHoursValue` from part_001 lines 661-674: keep `[0-9.\-]`,
`parseFloat`, and clamp anything outside `[0, 200)` (or unparsable) to 0. -/
def parseHoursValue (hoursStr : String) : ℚ :=
  let cleaned := hoursStr.toList.filter fun c => c.isDigit || c == '.' || c == '-'
  match jsParseFloat cleaned with
  | some hours => if 0 ≤ hours ∧ hours < 200 then hours else 0
  | none => 0

/-- `^\d{1,2}[\/\-]\d{1,2}[\/\-]\d{2,4}$`. -/
def isDateName1 (s : List Char) : Bool :=
  let r1 := leadDigits s
  if 1 ≤ r1 ∧ r1 ≤ 2 then
    match s.drop r1 with
    | c :: s2 =>
      if c == '/' || c == '-' then
        let r2 := leadDigits s2
        if 1 ≤ r2 ∧ r2 ≤ 2 then
          match s2.drop r2 with
          | c2 :: s3 =>
            if c2 == '/' || c2 == '-' then
              let r3 := leadDigits s3
              decide (2 ≤ r3 ∧ r3 ≤ 4) && (s3.drop r3).isEmpty
            else false
          | [] => false
        else false
      else false
    | [] => false
  else false

/-- `^\d{4}[\/\-]\d{1,2}[\/\-]\d{1,2}$`. -/
def isDateName2 (s : List Char) : Bool :=
  let r1 := leadDigits s
  if r1 == 4 then
    match s.drop r1 with
    | c :: s2 =>
      if c == '/' || c == '-' then
        let r2 := leadDigits s2
        if 1 ≤ r2 ∧ r2 ≤ 2 then
          match s2.drop r2 with
          | c2 :: s3 =>
            if c2 == '/' || c2 == '-' then
              let r3 := leadDigits s3
              decide (1 ≤ r3 ∧ r3 ≤ 2) && (s3.drop r3).isEmpty
            else false
          | [] => false
        else false
      else false
    | [] => false
  else false

/-- The date-range test of `isValidPartnerEntry` (part_001 line 717), with
`[\/\-]` separators and `[-–—]` range dashes. -/
def matchDateRangeDashAt (s : List Char) : Bool :=
  let r1 := leadDigits s
  if 1 ≤ r1 ∧ r1 ≤ 2 then
    match s.drop r1 with
    | c :: s2 =>
      if c == '/' || c == '-' then
        let r2 := leadDigits s2
        if 1 ≤ r2 ∧ r2 ≤ 2 then
          match s2.drop r2 with
          | c2 :: s3 =>
            if c2 == '/' || c2 == '-' then
              let r3 := leadDigits s3
              if 2 ≤ r3 ∧ r3 ≤ 4 then
                match dropSpaces (s3.drop r3) with
                | d :: s4 =>
                  if d == '-' || d == '–' || d == '—' then
                    let s5 := dropSpaces s4
                    let q1 := leadDigits s5
                    if 1 ≤ q1 ∧ q1 ≤ 2 then
                      match s5.drop q1 with
                      | e :: s6 =>
                        if e == '/' || e == '-' then
                          let q2 := leadDigits s6
                          if 1 ≤ q2 ∧ q2 ≤ 2 then
                            match s6.drop q2 with
                            | e2 :: s7 =>
                              if e2 == '/' || e2 == '-' then decide (2 ≤ leadDigits s7)
                              else false
                            | [] => false
                          else false
                        else false
                      | [] => false
                    else false
                  else false
                | [] => false
              else false
            else false
          | [] => false
        else false
      else false
    | [] => false
  else false

/-- `^[\s~=\-\*•·>»→|:]+$`, the punctuation-only name test (part_001 line
722). -/
def isPunctOnly (s : List Char) : Bool :=
  !s.isEmpty && s.all fun c =>
    jsIsSpace c || c == '~' || c == '=' || c == '-' || c == '*' || c == '•' || c == '·' ||
      c == '>' || c == '»' || c == '→' || c == '|' || c == ':'

/-- Case-insensitive substring test used by `isValidPartnerEntry`
(`nameLower.includes(...)` after lower-casing). -/
def includesSub (hay needle : String) : Bool :=
  strIncludesAux needle.toList hay.toList

/-- `isValidPartnerEntry` from part_001 lines 679-732: rejects header-like,
footer, too-short, all-numeric, date-like, and punctuation-only names, and
requires hours strictly greater than zero. -/
def isValidPartnerEntry (partner : Partner) : Bool :=
  let nameLower := String.mk (partner.name.toList.map Char.toLower)
  let nameTrimmed := jsTrim partner.name.toList
  if partner.name.toList.isEmpty then false
  else if includesSub nameLower "partner name" || includesSub nameLower "employee name" ||
      nameLower == "name" then false
  else if includesSub nameLower "total tippable" || includesSub nameLower "total:" ||
      nameLower == "total" || includesSub nameLower "grand total" then false
  else if nameTrimmed.length < 2 then false
  else if isAllDigits nameTrimmed then false
  else if isDateName1 nameTrimmed || isDateName2 nameTrimmed then false
  else if existsPos matchDateRangeDashAt nameTrimmed then false
  else if isPunctOnly nameTrimmed then false
  else if partner.hours ≤ 0 then false
  else true

/-- Well-formedness of collapsed text: no two adjacent whitespace characters,
and every whitespace character is a plain space. -/
def collapsedP (l : List Char) : Prop :=
  l.Chain' (fun a b => ¬(jsIsSpace a = true ∧ jsIsSpace b = true)) ∧
    ∀ c ∈ l, jsIsSpace c = true → c = ' '

/-- `breakdownBills` in closed form: every input is first clamped to the
natural number `(max 0 ⌊x⌋).toNat`, then decomposed greedily. -/
theorem breakdownBills_eq (x : ℚ) :
    breakdownBills x =
      ⟨(max 0 ⌊x⌋).toNat / 20, (max 0 ⌊x⌋).toNat % 20 / 10,
        (max 0 ⌊x⌋).toNat % 20 % 10 / 5, (max 0 ⌊x⌋).toNat % 20 % 10 % 5⟩ := by
  simp only [breakdownBills, Bills.mk.injEq]
  exact ⟨trivial, by omega, by omega, by omega⟩

/-- `breakdownBills` on a natural-number amount computes the greedy
largest-denomination-first decomposition. -/
theorem breakdownBills_natCast (n : ℕ) :
    breakdownBills (n : ℚ) = ⟨n / 20, n % 20 / 10, n % 20 % 10 / 5, n % 20 % 10 % 5⟩ := by
  have hmax : (max 0 ⌊(n : ℚ)⌋).toNat = n := by
    rw [Int.floor_natCast]; omega
  rw [breakdownBills_eq, hmax]

/-- Claim C1: for every integer `n ≥ 0`, `breakdownBills n` returns counts
with `20*twenties + 10*tens + 5*fives + ones = n`, `ones ∈ [0,4]`,
`fives ∈ {0,1}`, `tens ∈ {0,1}`, and this is the unique such decomposition
(hence the unique greedy largest-denomination-first one). -/
theorem tip_C1_breakdown_greedy (n : ℕ) :
    20 * (breakdownBills (n : ℚ)).twenties + 10 * (breakdownBills (n : ℚ)).tens +
        5 * (breakdownBills (n : ℚ)).fives + (breakdownBills (n : ℚ)).ones = n ∧
    (breakdownBills (n : ℚ)).ones ≤ 4 ∧
    (breakdownBills (n : ℚ)).fives ≤ 1 ∧
    (breakdownBills (n : ℚ)).tens ≤ 1 ∧
    (∀ t te f o : ℕ, 20 * t + 10 * te + 5 * f + o = n →
      o ≤ 4 → f ≤ 1 → te ≤ 1 → Bills.mk t te f o = breakdownBills (n : ℚ)) := by
  rw [breakdownBills_natCast]
  dsimp only
  refine ⟨by omega, by omega, by omega, by omega, ?_⟩
  intro t te f o h1 h2 h3 h4
  simp only [Bills.mk.injEq]
  omega

/-- Witness for C1 at `n = 47`: the greedy counts are `⟨2, 0, 1, 2⟩` and any
valid decomposition of 47 equals them. -/
theorem tip_C1_breakdown_greedy_witness :
    Bills.mk 2 0 1 2 = breakdownBills ((47 : ℕ) : ℚ) :=
  (tip_C1_breakdown_greedy 47).2.2.2.2 2 0 1 2 (by norm_num) (by norm_num) (by norm_num)
    (by norm_num)

/-- Claim C10: `breakdownBills` is total on every rational input; it always
returns the greedy decomposition of `max 0 ⌊x⌋` (non-negative integer counts
by type), so negative or fractional payouts decompose their clamped floor. -/
theorem tip_C10_breakdown_totality (x : ℚ) :
    breakdownBills x = breakdownBills (((max 0 ⌊x⌋).toNat : ℕ) : ℚ) ∧
    20 * (breakdownBills x).twenties + 10 * (breakdownBills x).tens +
        5 * (breakdownBills x).fives + (breakdownBills x).ones = (max 0 ⌊x⌋).toNat ∧
    (x < 0 → breakdownBills x = ⟨0, 0, 0, 0⟩) := by
  refine ⟨by rw [breakdownBills_eq, breakdownBills_natCast], ?_, ?_⟩
  · rw [breakdownBills_eq]
    dsimp only
    omega
  · intro hx
    have hfl : ⌊x⌋ < 0 := Int.floor_lt.2 (by exact_mod_cast hx)
    rw [breakdownBills_eq]
    have : (max 0 ⌊x⌋).toNat = 0 := by omega
    rw [this]

/-- Witness for C10 at `x = -5`: a negative payout yields zero of every
bill. -/
theorem tip_C10_breakdown_totality_witness :
    breakdownBills (-5) = ⟨0, 0, 0, 0⟩ :=
  (tip_C10_breakdown_totality (-5)).2.2 (by norm_num)

/-- Claim C2: the documented round-trip example.  With `totalCash = 40.00` and
hours `[9.22, 18.48]` the allocator computes total hours `27.70`, truncated
hourly rate `1.44`, decimal tips `13.28` and `26.61`, nearest-dollar payouts
`13` and `27`, and bill breakdowns `{0,1,0,3}` and `{1,0,1,2}`. -/
theorem tip_C2_roundtrip_example :
    List.foldl (· + ·) 0 [(9.22 : ℚ), 18.48] = 27.70 ∧
    runCalculations 40 [9.22, 18.48] =
      some (1.44, [⟨9.22, 13.28, 13, ⟨0, 1, 0, 3⟩⟩, ⟨18.48, 26.61, 27, ⟨1, 0, 1, 2⟩⟩]) := by
  decide

/-- Counterexample to claim C3 as stated: with `totalCash = 999999999/10^11`
(just below one cent) and a single partner with one hour, the truncated rate
is bumped to a full cent by the `1e-8` epsilon added before flooring, so
`hourlyRate * totalHours = 0.01 > totalCash`. -/
theorem tip_C3_rate_bound_counterexample :
    runCalculations (999999999 / 100000000000) [1] =
      some (1 / 100, [⟨1, 1 / 100, 0, ⟨0, 0, 0, 0⟩⟩]) ∧
    ¬ (1 / 100 * List.foldl (· + ·) 0 [(1 : ℚ)] ≤ 999999999 / 100000000000) := by
  decide

/-- Claim C3 as amended: because `truncateToTwoDecimals` adds `1e-8` before
flooring, the truncated hourly rate satisfies only
`hourlyRate * totalHours ≤ totalCash + totalHours * 1e-10` (the claimed
`hourlyRate * totalHours ≤ totalCash` can fail by up to `totalHours * 1e-10`
when `totalCash/totalHours` lies within `1e-10` below a cent boundary). -/
theorem tip_C3_rate_bound_amended (totalTipsVal : ℚ) (partners : List ℚ) (rate : ℚ)
    (rs : List CalcResult) (h : runCalculations totalTipsVal partners = some (rate, rs)) :
    rate * partners.foldl (· + ·) 0 ≤
      totalTipsVal + partners.foldl (· + ·) 0 * (1 / 10000000000) := by
  simp only [runCalculations] at h
  split_ifs at h with h1 h2
  simp only [Option.some.injEq, Prod.mk.injEq] at h
  obtain ⟨hrate, -⟩ := h
  subst hrate
  set H := partners.foldl (· + ·) 0 with hH
  have hHpos : 0 < H := not_le.mp h2
  simp only [truncateToTwoDecimals]
  set y : ℚ := totalTipsVal / H * 100 + eps with hy
  have hfl : ((⌊y⌋ : ℤ) : ℚ) ≤ y := Int.floor_le y
  have hmul : ((⌊y⌋ : ℤ) : ℚ) * H ≤ y * H :=
    mul_le_mul_of_nonneg_right hfl (le_of_lt hHpos)
  have hcancel : totalTipsVal / H * H = totalTipsVal := div_mul_cancel₀ _ (ne_of_gt hHpos)
  have hyH : y * H = 100 * totalTipsVal + (1 / 100000000) * H := by
    calc y * H = 100 * (totalTipsVal / H * H) + eps * H := by rw [hy]; ring
      _ = 100 * totalTipsVal + (1 / 100000000) * H := by rw [hcancel, eps]
  rw [hyH] at hmul
  linarith [hmul]

/-- Witness for the amended C3 at `totalCash = 40`, hours `[9.22, 18.48]`. -/
theorem tip_C3_rate_bound_amended_witness :
    (1.44 : ℚ) * List.foldl (· + ·) 0 [(9.22 : ℚ), 18.48] ≤
      40 + List.foldl (· + ·) 0 [(9.22 : ℚ), 18.48] * (1 / 10000000000) :=
  tip_C3_rate_bound_amended 40 [9.22, 18.48]
    1.44 [⟨9.22, 13.28, 13, ⟨0, 1, 0, 3⟩⟩, ⟨18.48, 26.61, 27, ⟨1, 0, 1, 2⟩⟩] (by decide)

/-- Claim C8: the near-duplicate allocation variants really fork on the
whole-dollar step: on the same input they produce identical per-partner
decimal tips but different whole-dollar payouts (`13` under round-to-nearest
versus `14` under round-up, for the decimal tip `13.28`). -/
theorem tip_C8_round_vs_ceil_fork :
    (runCalculations 40 [9.22, 18.48]).map (fun p => p.2.map CalcResult.decimalTip) =
      (runCalculationsCeil 40 [9.22, 18.48]).map (fun p => p.2.map CalcResult.decimalTip) ∧
    (runCalculations 40 [9.22, 18.48]).map (fun p => p.2.map CalcResult.wholeDollarPayout) =
      some [13, 27] ∧
    (runCalculationsCeil 40 [9.22, 18.48]).map (fun p => p.2.map CalcResult.wholeDollarPayout) =
      some [14, 27] := by
  decide

/-- The number fix-up in `bumpNormal` never touches the hour fields. -/
theorem bumpNormal_normalHours (p : Partner) (e : MergedPartner) :
    (bumpNormal p e).normalHours = e.normalHours + p.hours := by
  simp only [bumpNormal]; split <;> rfl

/-- `bumpNormal` leaves holiday hours unchanged. -/
theorem bumpNormal_holidayHours (p : Partner) (e : MergedPartner) :
    (bumpNormal p e).holidayHours = e.holidayHours := by
  simp only [bumpNormal]; split <;> rfl

/-- `bumpHoliday` leaves normal hours unchanged. -/
theorem bumpHoliday_normalHours (p : Partner) (e : MergedPartner) :
    (bumpHoliday p e).normalHours = e.normalHours := by
  simp only [bumpHoliday]; split <;> rfl

/-- The number fix-up in `bumpHoliday` never touches the hour fields. -/
theorem bumpHoliday_holidayHours (p : Partner) (e : MergedPartner) :
    (bumpHoliday p e).holidayHours = e.holidayHours + p.hours := by
  simp only [bumpHoliday]; split <;> rfl

/-- Lookup steps through a cons cell by key comparison. -/
theorem mapLookup_cons (a : String × MergedPartner) (l : PartnerMap) (k : String) :
    mapLookup (a :: l) k = if a.1 = k then some a.2 else mapLookup l k := by
  by_cases h : a.1 = k
  · simp [mapLookup, List.find?_cons, h]
  · simp [mapLookup, List.find?_cons, h]

/-- Lookup after an in-place update. -/
theorem mapLookup_mapUpdate (m : PartnerMap) (key k : String)
    (f : MergedPartner → MergedPartner) :
    mapLookup (mapUpdate m key f) k =
      if key = k then (mapLookup m k).map f else mapLookup m k := by
  induction m with
  | nil =>
    simp [mapLookup, mapUpdate]
  | cons e m ih =>
    have hstep : mapUpdate (e :: m) key f =
        (if e.1 == key then (e.1, f e.2) else e) :: mapUpdate m key f := rfl
    rw [hstep]
    by_cases hek : e.1 = key
    · by_cases hk : e.1 = k
      · rw [if_pos (by simp [hek]), mapLookup_cons, mapLookup_cons,
          if_pos hk, if_pos hk, if_pos (by rw [← hek, hk])]
        rfl
      · rw [if_pos (by simp [hek]), mapLookup_cons, mapLookup_cons,
          if_neg hk, if_neg hk, ih, if_neg (by rw [← hek]; exact hk)]
    · by_cases hk : e.1 = k
      · rw [if_neg (by simp [hek]), mapLookup_cons, mapLookup_cons,
          if_pos hk, if_pos hk, if_neg (by rw [← hk]; exact fun h => hek h.symm)]
      · rw [if_neg (by simp [hek]), mapLookup_cons, mapLookup_cons,
          if_neg hk, if_neg hk, ih]

/-- A key is present iff lookup succeeds. -/
theorem hasKeyB_iff_isSome (m : PartnerMap) (k : String) :
    hasKeyB m k = (mapLookup m k).isSome := by
  induction m with
  | nil => rfl
  | cons e m ih =>
    rw [mapLookup_cons]
    by_cases hk : e.1 = k
    · simp [hasKeyB, hk]
    · simp only [hasKeyB, List.any_cons] at ih ⊢
      simp [hk, ih]

/-- Lookup through the single-entry append that creates a fresh entry. -/
theorem mapLookup_append_single (m : PartnerMap) (key k : String) (e : MergedPartner) :
    mapLookup (m ++ [(key, e)]) k =
      match mapLookup m k with
      | some r => some r
      | none => if key = k then some e else none := by
  induction m with
  | nil =>
    rw [List.nil_append]
    have h0 : mapLookup ([] : PartnerMap) k = none := rfl
    rw [mapLookup_cons, h0]
  | cons a m ih =>
    rw [List.cons_append, mapLookup_cons, mapLookup_cons]
    by_cases hk : a.1 = k
    · rw [if_pos hk, if_pos hk]
    · rw [if_neg hk, if_neg hk, ih]

/-- Lookup after one insertion step of the partner-map building loop. -/
theorem mapLookup_insertPartner (bump : Partner → MergedPartner → MergedPartner)
    (m : PartnerMap) (p : Partner) (k : String) :
    mapLookup (insertPartner bump m p) k =
      if normalizeNameKey p.name = k then
        some (bump p ((mapLookup m k).getD ⟨p.name, p.number, 0, 0⟩))
      else mapLookup m k := by
  simp only [insertPartner]
  set key := normalizeNameKey p.name with hkey
  by_cases hany : m.any (fun e => e.1 == key) = true
  · rw [if_pos hany, mapLookup_mapUpdate]
    by_cases hk : key = k
    · rw [if_pos hk, if_pos hk]
      have hsome : (mapLookup m k).isSome := by
        rw [← hasKeyB_iff_isSome]
        unfold hasKeyB
        rw [← hk]
        exact hany
      obtain ⟨r, hr⟩ := Option.isSome_iff_exists.mp hsome
      rw [hr]
      rfl
    · rw [if_neg hk, if_neg hk]
  · rw [if_neg hany, mapLookup_mapUpdate]
    by_cases hk : key = k
    · rw [if_pos hk, if_pos hk, mapLookup_append_single]
      have hnone : mapLookup m k = none := by
        rw [← Option.not_isSome_iff_eq_none, ← hasKeyB_iff_isSome]
        unfold hasKeyB
        rw [← hk]
        exact fun hc => hany hc
      rw [hnone, if_pos hk]
      rfl
    · rw [if_neg hk, if_neg hk, mapLookup_append_single]
      cases hml : mapLookup m k with
      | some r => rfl
      | none => rw [if_neg hk]

/-- One normal-period insertion adds `p.hours` to the entry keyed by
`p`'s normalized name and changes no other key. -/
theorem nhOf_insertNormal (m : PartnerMap) (p : Partner) (k : String) :
    nhOf (insertPartner bumpNormal m p) k =
      nhOf m k + (if normalizeNameKey p.name = k then p.hours else 0) := by
  unfold nhOf
  rw [mapLookup_insertPartner]
  by_cases hk : normalizeNameKey p.name = k
  · rw [if_pos hk, if_pos hk]
    cases hml : mapLookup m k with
    | some r => simp [bumpNormal_normalHours]
    | none => simp [bumpNormal_normalHours]
  · rw [if_neg hk, if_neg hk, add_zero]

/-- Holiday-period insertions never change recorded normal hours. -/
theorem nhOf_insertHoliday (m : PartnerMap) (p : Partner) (k : String) :
    nhOf (insertPartner bumpHoliday m p) k = nhOf m k := by
  unfold nhOf
  rw [mapLookup_insertPartner]
  by_cases hk : normalizeNameKey p.name = k
  · rw [if_pos hk]
    cases hml : mapLookup m k with
    | some r => simp [bumpHoliday_normalHours]
    | none => simp [bumpHoliday_normalHours]
  · rw [if_neg hk]

/-- Normal-period insertions never change recorded holiday hours. -/
theorem hhOf_insertNormal (m : PartnerMap) (p : Partner) (k : String) :
    hhOf (insertPartner bumpNormal m p) k = hhOf m k := by
  unfold hhOf
  rw [mapLookup_insertPartner]
  by_cases hk : normalizeNameKey p.name = k
  · rw [if_pos hk]
    cases hml : mapLookup m k with
    | some r => simp [bumpNormal_holidayHours]
    | none => simp [bumpNormal_holidayHours]
  · rw [if_neg hk]

/-- One holiday-period insertion adds `p.hours` to the entry keyed by
`p`'s normalized name and changes no other key. -/
theorem hhOf_insertHoliday (m : PartnerMap) (p : Partner) (k : String) :
    hhOf (insertPartner bumpHoliday m p) k =
      hhOf m k + (if normalizeNameKey p.name = k then p.hours else 0) := by
  unfold hhOf
  rw [mapLookup_insertPartner]
  by_cases hk : normalizeNameKey p.name = k
  · rw [if_pos hk, if_pos hk]
    cases hml : mapLookup m k with
    | some r => simp [bumpHoliday_holidayHours]
    | none => simp [bumpHoliday_holidayHours]
  · rw [if_neg hk, if_neg hk, add_zero]

/-- Folding the normal-partner loop accumulates, per key, exactly the hours of
the records whose normalized name equals that key. -/
theorem nhOf_foldl_normal (l : List Partner) (m : PartnerMap) (k : String) :
    nhOf (l.foldl (insertPartner bumpNormal) m) k =
      nhOf m k + ((l.filter fun p => normalizeNameKey p.name == k).map Partner.hours).sum := by
  induction l generalizing m with
  | nil => simp
  | cons p l ih =>
    rw [List.foldl_cons, ih, nhOf_insertNormal]
    by_cases hk : normalizeNameKey p.name = k
    · simp [List.filter_cons, hk]
      ring
    · simp [List.filter_cons, hk]

/-- Folding the holiday-partner loop leaves all normal hours unchanged. -/
theorem nhOf_foldl_holiday (l : List Partner) (m : PartnerMap) (k : String) :
    nhOf (l.foldl (insertPartner bumpHoliday) m) k = nhOf m k := by
  induction l generalizing m with
  | nil => rfl
  | cons p l ih => rw [List.foldl_cons, ih, nhOf_insertHoliday]

/-- Folding the normal-partner loop leaves all holiday hours unchanged. -/
theorem hhOf_foldl_normal (l : List Partner) (m : PartnerMap) (k : String) :
    hhOf (l.foldl (insertPartner bumpNormal) m) k = hhOf m k := by
  induction l generalizing m with
  | nil => rfl
  | cons p l ih => rw [List.foldl_cons, ih, hhOf_insertNormal]

/-- Folding the holiday-partner loop accumulates, per key, exactly the hours
of the records whose normalized name equals that key. -/
theorem hhOf_foldl_holiday (l : List Partner) (m : PartnerMap) (k : String) :
    hhOf (l.foldl (insertPartner bumpHoliday) m) k =
      hhOf m k + ((l.filter fun p => normalizeNameKey p.name == k).map Partner.hours).sum := by
  induction l generalizing m with
  | nil => simp
  | cons p l ih =>
    rw [List.foldl_cons, ih, hhOf_insertHoliday]
    by_cases hk : normalizeNameKey p.name = k
    · simp [List.filter_cons, hk]
      ring
    · simp [List.filter_cons, hk]

/-- `mapUpdate` never changes which keys are present. -/
theorem hasKeyB_mapUpdate (m : PartnerMap) (key k : String)
    (f : MergedPartner → MergedPartner) :
    hasKeyB (mapUpdate m key f) k = hasKeyB m k := by
  simp only [hasKeyB, mapUpdate, List.any_map]
  congr 1
  funext e
  by_cases hek : e.1 = key <;> simp [hek]

/-- One insertion adds exactly the inserted record's normalized key. -/
theorem hasKeyB_insertPartner (bump : Partner → MergedPartner → MergedPartner)
    (m : PartnerMap) (p : Partner) (k : String) :
    hasKeyB (insertPartner bump m p) k =
      (hasKeyB m k || (normalizeNameKey p.name == k)) := by
  simp only [insertPartner]
  by_cases hany : m.any (fun e => e.1 == normalizeNameKey p.name) = true
  · rw [if_pos hany, hasKeyB_mapUpdate]
    by_cases hk : normalizeNameKey p.name = k
    · subst hk
      simp only [hasKeyB] at hany ⊢
      simp [hany]
    · simp [hk]
  · rw [if_neg hany, hasKeyB_mapUpdate]
    simp [hasKeyB, List.any_append]

/-- Folding an insertion loop adds exactly the normalized keys of the folded
records. -/
theorem hasKeyB_foldl (bump : Partner → MergedPartner → MergedPartner)
    (l : List Partner) (m : PartnerMap) (k : String) :
    hasKeyB (l.foldl (insertPartner bump) m) k =
      (hasKeyB m k || l.any fun p => normalizeNameKey p.name == k) := by
  induction l generalizing m with
  | nil => simp
  | cons p l ih =>
    rw [List.foldl_cons, ih, hasKeyB_insertPartner]
    simp [Bool.or_assoc]

/-- Each greedy while-loop takes exactly the notes it removes from the
inventory. -/
theorem allocLoop_count (den remaining : ℤ) (avail : ℕ) :
    (allocLoop den remaining avail).1 + (allocLoop den remaining avail).2.2 = avail := by
  induction avail generalizing remaining with
  | zero => rfl
  | succ a ih =>
    simp only [allocLoop]
    split
    · dsimp only
      have := ih (remaining - den)
      omega
    · dsimp only
      omega

/-- Per-partner allocation conserves the inventory: assigned plus leftover
equals the inventory it started from, in every denomination. -/
theorem allocPartner_conserve (payout : ℤ) (b : Bills) :
    (allocPartner payout b).1.twenties + (allocPartner payout b).2.2.twenties = b.twenties ∧
    (allocPartner payout b).1.tens + (allocPartner payout b).2.2.tens = b.tens ∧
    (allocPartner payout b).1.fives + (allocPartner payout b).2.2.fives = b.fives ∧
    (allocPartner payout b).1.ones + (allocPartner payout b).2.2.ones = b.ones := by
  simp only [allocPartner]
  have hT := allocLoop_count 20 payout b.twenties
  generalize hTe1 : allocLoop 20 payout b.twenties = T at *
  obtain ⟨tc, tr, ta⟩ := T
  have hTe := allocLoop_count 10 tr b.tens
  generalize hTe2 : allocLoop 10 tr b.tens = Te at *
  obtain ⟨tec, ter, tea⟩ := Te
  have hF := allocLoop_count 5 ter b.fives
  generalize hTe3 : allocLoop 5 ter b.fives = F at *
  obtain ⟨fc, fr, fa⟩ := F
  have hO := allocLoop_count 1 fr b.ones
  generalize hTe4 : allocLoop 1 fr b.ones = O at *
  obtain ⟨oc, orr, oa⟩ := O
  dsimp only at hT hTe hF hO ⊢
  split_ifs <;> dsimp only <;> omega

/-- The partner loop conserves the inventory: the notes it assigns plus the
notes it returns equal the notes it was given, in every denomination. -/
theorem redistLoop_conserve (l : List CalcResult) (rem : Bills) :
    (usedOf (redistLoop l rem).1).twenties + (redistLoop l rem).2.twenties = rem.twenties ∧
    (usedOf (redistLoop l rem).1).tens + (redistLoop l rem).2.tens = rem.tens ∧
    (usedOf (redistLoop l rem).1).fives + (redistLoop l rem).2.fives = rem.fives ∧
    (usedOf (redistLoop l rem).1).ones + (redistLoop l rem).2.ones = rem.ones := by
  induction l generalizing rem with
  | nil =>
    simp only [redistLoop]
    dsimp only [usedOf]
    omega
  | cons p rest ih =>
    simp only [redistLoop]
    have ha := allocPartner_conserve p.wholeDollarPayout rem
    have hi := ih (allocPartner p.wholeDollarPayout rem).2.2
    dsimp only [usedOf]
    omega

/-- The partner loop emits one row per partner, in processing order. -/
theorem redistLoop_partners (l : List CalcResult) (rem : Bills) :
    (redistLoop l rem).1.map (·.1) = l := by
  induction l generalizing rem with
  | nil => rfl
  | cons p rest ih =>
    simp only [redistLoop, List.map_cons]
    rw [ih]

/-- Descending insertion keeps the list a permutation. -/
theorem insertPayoutDesc_perm (r : CalcResult) (l : List CalcResult) :
    (insertPayoutDesc r l).Perm (r :: l) := by
  induction l with
  | nil => exact List.Perm.refl _
  | cons x xs ih =>
    simp only [insertPayoutDesc]
    split
    · exact List.Perm.refl _
    · exact (ih.cons x).trans (List.Perm.swap r x xs)

/-- The stable sort is a permutation of its input. -/
theorem sortPayoutDesc_perm (l : List CalcResult) : (sortPayoutDesc l).Perm l := by
  induction l with
  | nil => exact List.Perm.refl _
  | cons x xs ih =>
    simp only [sortPayoutDesc, List.foldr_cons]
    exact (insertPayoutDesc_perm x _).trans (ih.cons x)

/-- Descending insertion preserves descending order. -/
theorem insertPayoutDesc_sorted (r : CalcResult) (l : List CalcResult)
    (h : l.Pairwise fun a b => b.wholeDollarPayout ≤ a.wholeDollarPayout) :
    (insertPayoutDesc r l).Pairwise fun a b => b.wholeDollarPayout ≤ a.wholeDollarPayout := by
  induction l with
  | nil => simp [insertPayoutDesc]
  | cons x xs ih =>
    rw [List.pairwise_cons] at h
    simp only [insertPayoutDesc]
    split
    · rename_i hxr
      rw [List.pairwise_cons]
      refine ⟨?_, List.pairwise_cons.mpr h⟩
      intro b hb
      rcases List.mem_cons.mp hb with hb | hb
      · rw [hb]; exact hxr
      · exact le_trans (h.1 b hb) hxr
    · rename_i hxr
      rw [List.pairwise_cons]
      refine ⟨?_, ih h.2⟩
      intro b hb
      rcases List.mem_cons.mp ((insertPayoutDesc_perm r xs).mem_iff.mp hb) with hb | hb
      · rw [hb]; exact le_of_lt (lt_of_not_le hxr)
      · exact h.1 b hb

/-- The stable sort is sorted by descending payout. -/
theorem sortPayoutDesc_sorted (l : List CalcResult) :
    (sortPayoutDesc l).Pairwise fun a b => b.wholeDollarPayout ≤ a.wholeDollarPayout := by
  induction l with
  | nil => simp [sortPayoutDesc]
  | cons x xs ih =>
    simp only [sortPayoutDesc, List.foldr_cons]
    exact insertPayoutDesc_sorted x _ ih

/-- Claim C7: redistribution never assigns more notes of any denomination
than the inventory supplies (so the assigned dollar value never exceeds the
inventory value), and partners are processed — and their rows emitted — in
descending `wholeDollarPayout` order, covering exactly the prior results. -/
theorem tip_C7_reallocation_conservation (results : List CalcResult) (avail : Bills) :
    (usedOf (redistributeBills results avail).1).twenties ≤ avail.twenties ∧
    (usedOf (redistributeBills results avail).1).tens ≤ avail.tens ∧
    (usedOf (redistributeBills results avail).1).fives ≤ avail.fives ∧
    (usedOf (redistributeBills results avail).1).ones ≤ avail.ones ∧
    20 * (usedOf (redistributeBills results avail).1).twenties +
        10 * (usedOf (redistributeBills results avail).1).tens +
        5 * (usedOf (redistributeBills results avail).1).fives +
        (usedOf (redistributeBills results avail).1).ones ≤
      20 * avail.twenties + 10 * avail.tens + 5 * avail.fives + avail.ones ∧
    ((redistributeBills results avail).1.map fun r => r.1.wholeDollarPayout).Pairwise
      (fun a b => b ≤ a) ∧
    ((redistributeBills results avail).1.map (·.1)).Perm results := by
  have hc := redistLoop_conserve (sortPayoutDesc results) avail
  have hp := redistLoop_partners (sortPayoutDesc results) avail
  have hs := sortPayoutDesc_sorted results
  refine ⟨by unfold redistributeBills; omega, by unfold redistributeBills; omega,
    by unfold redistributeBills; omega, by unfold redistributeBills; omega,
    by unfold redistributeBills; omega, ?_, ?_⟩
  · have hmap : ((redistributeBills results avail).1.map fun r => r.1.wholeDollarPayout) =
        (sortPayoutDesc results).map (fun r => r.wholeDollarPayout) := by
      unfold redistributeBills
      rw [show ((redistLoop (sortPayoutDesc results) avail).1.map
          fun r => r.1.wholeDollarPayout) =
          ((redistLoop (sortPayoutDesc results) avail).1.map (·.1)).map
            (fun r => r.wholeDollarPayout) by rw [List.map_map]; rfl]
      rw [hp]
    rw [hmap, List.pairwise_map]
    exact hs
  · unfold redistributeBills
    rw [hp]
    exact sortPayoutDesc_perm results

/-- Counterexample to claim C9 as stated: the part_002 two-period variant
merges `"Johnson"` (regular) with `"Johnsonn"` (holiday) into a single
matched entry even though their normalized-name keys differ — `matchPartners`
also accepts containment matches with length ratio above `0.7`. -/
theorem tip_C9_merge_counterexample :
    matchPartners [⟨"Johnson", "", 10⟩] [⟨"Johnsonn", "", 5⟩] =
      [⟨"Johnson", some ⟨"Johnson", "", 10⟩, some ⟨"Johnsonn", "", 5⟩⟩] ∧
    normalizeNameForMatch "Johnson" ≠ normalizeNameForMatch "Johnsonn" ∧
    normalizeNameKey "Johnson" ≠ normalizeNameKey "Johnsonn" := by
  decide

/-- Claim C9 as amended: in holiday-dashboard.js the two periods are merged
exactly by normalized-name-key equality — the merged map records, under each
key, precisely the summed hours of the normal records with that key and of
the holiday records with that key, and a key is present iff some input record
normalizes to it.  (The part_002 variant additionally fuzzy-merges
containment matches; see the counterexample.) -/
theorem tip_C9_merge_by_key (normalPartners holidayPartners : List Partner) (k : String) :
    nhOf (buildPartnerMap normalPartners holidayPartners) k =
      ((normalPartners.filter fun p => normalizeNameKey p.name == k).map Partner.hours).sum ∧
    hhOf (buildPartnerMap normalPartners holidayPartners) k =
      ((holidayPartners.filter fun p => normalizeNameKey p.name == k).map Partner.hours).sum ∧
    hasKeyB (buildPartnerMap normalPartners holidayPartners) k =
      ((normalPartners ++ holidayPartners).any fun p => normalizeNameKey p.name == k) := by
  unfold buildPartnerMap
  refine ⟨?_, ?_, ?_⟩
  · rw [nhOf_foldl_holiday, nhOf_foldl_normal]
    simp [nhOf, mapLookup]
  · rw [hhOf_foldl_holiday, hhOf_foldl_normal]
    simp [hhOf, mapLookup]
  · rw [hasKeyB_foldl, hasKeyB_foldl]
    simp [hasKeyB, List.any_append, Bool.or_assoc]

/-- Claim C6: in the two-period variant every merged partner's whole-dollar
payout is computed by rounding once on the combined decimal total of the two
period tips (each period tip being that period's independently truncated rate
times the period hours, rounded to cents) — and the round-each-period-first
policy would genuinely differ: on the concrete input where both period tips
are `10.40`, the code pays `21` while round-then-sum would pay `20`. -/
theorem tip_C6_sum_then_round :
    (∀ (normalPartners holidayPartners : List Partner) (rn rh : ℚ) (r : HolidayResult),
      r ∈ calculateHolidaySplitTips normalPartners holidayPartners rn rh →
      r.wholeDollarPayout =
        specSumThenRound (truncateToTwoDecimals rn) (truncateToTwoDecimals rh)
          r.normalHours r.holidayHours) ∧
    (calculateHolidaySplitTips [⟨"A", "", 1⟩] [⟨"A", "", 1⟩] 10.4 10.4).map
        (·.wholeDollarPayout) = [21] ∧
    specRoundThenSum (truncateToTwoDecimals 10.4) (truncateToTwoDecimals 10.4) 1 1 = 20 := by
  refine ⟨?_, by decide, by decide⟩
  intro np hp rn rh r hr
  simp only [calculateHolidaySplitTips, List.mem_map] at hr
  obtain ⟨e, -, rfl⟩ := hr
  rfl

/-- Witness for C6: the concrete merged partner with both period tips `10.40`
is paid `21 = round(20.80)`, matching the sum-then-round formula. -/
theorem tip_C6_sum_then_round_witness :
    (21 : ℤ) =
      specSumThenRound (truncateToTwoDecimals 10.4) (truncateToTwoDecimals 10.4) 1 1 :=
  tip_C6_sum_then_round.1 [⟨"A", "", 1⟩] [⟨"A", "", 1⟩] 10.4 10.4
    ⟨"A", "", 1, 1, 10.4, 10.4, 20.8, 21, ⟨1, 0, 0, 1⟩⟩ (by decide)

/-- The head of collapsed text is the (space-normalized) head of the
input. -/
theorem collapseWs_head? (u : List Char) :
    (collapseWs u).head? = u.head?.map fun c => if jsIsSpace c then ' ' else c := by
  induction u using collapseWs.induct with
  | case1 => rfl
  | case2 x h1 => simp [collapseWs, h1]
  | case3 x h1 => simp [collapseWs, h1]
  | case4 x d rest h1 h2 ih =>
    simp only [collapseWs, if_pos h1, if_pos h2]
    rw [ih]
    simp [h1, h2]
  | case5 x d rest h1 h2 ih =>
    simp only [collapseWs, if_pos h1, if_neg h2]
    simp [h1]
  | case6 x d rest h1 ih =>
    simp only [collapseWs, if_neg h1]
    simp [h1]

/-- Collapsing always produces well-collapsed text. -/
theorem collapseWs_collapsedP (u : List Char) : collapsedP (collapseWs u) := by
  induction u using collapseWs.induct with
  | case1 => exact ⟨List.chain'_nil, by intro c hc; simp [collapseWs] at hc⟩
  | case2 x h1 =>
    refine ⟨?_, ?_⟩ <;> simp [collapseWs, h1]
  | case3 x h1 =>
    refine ⟨?_, ?_⟩ <;> simp [collapseWs, h1]
  | case4 x d rest h1 h2 ih =>
    simpa only [collapseWs, if_pos h1, if_pos h2] using ih
  | case5 x d rest h1 h2 ih =>
    simp only [collapseWs, if_pos h1, if_neg h2]
    obtain ⟨ihc, ihm⟩ := ih
    refine ⟨List.chain'_cons'.mpr ⟨?_, ihc⟩, ?_⟩
    · intro y hy
      rw [collapseWs_head?] at hy
      simp only [List.head?_cons, Option.map_some'] at hy
      intro hcon
      rcases hcon with ⟨-, hys⟩
      rw [if_neg h2] at hy
      injection hy with hy
      rw [hy] at h2
      exact h2 hys
    · intro c hc hcs
      rcases List.mem_cons.mp hc with hc | hc
      · rw [hc]
      · exact ihm c hc hcs
  | case6 x d rest h1 ih =>
    simp only [collapseWs, if_neg h1]
    obtain ⟨ihc, ihm⟩ := ih
    refine ⟨List.chain'_cons'.mpr ⟨?_, ihc⟩, ?_⟩
    · intro y hy hcon
      exact h1 hcon.1
    · intro c hc hcs
      rcases List.mem_cons.mp hc with hc | hc
      · rw [hc] at hcs; exact absurd hcs h1
      · exact ihm c hc hcs

/-- Collapsing is the identity on well-collapsed text. -/
theorem collapseWs_of_collapsedP (v : List Char) (h : collapsedP v) : collapseWs v = v := by
  induction v using collapseWs.induct with
  | case1 => rfl
  | case2 x h1 =>
    have := h.2 x (by simp) h1
    simp [collapseWs, h1, this]
  | case3 x h1 =>
    simp [collapseWs, h1]
  | case4 x d rest h1 h2 ih =>
    exfalso
    have := List.chain'_cons'.mp h.1
    exact this.1 d (by simp) ⟨h1, h2⟩
  | case5 x d rest h1 h2 ih =>
    simp only [collapseWs, if_pos h1, if_neg h2]
    have hx : x = ' ' := h.2 x (by simp) h1
    have htail : collapsedP (d :: rest) :=
      ⟨(List.chain'_cons'.mp h.1).2, fun c hc hcs => h.2 c (List.mem_cons_of_mem x hc) hcs⟩
    rw [ih htail, hx]
  | case6 x d rest h1 ih =>
    simp only [collapseWs, if_neg h1]
    have htail : collapsedP (d :: rest) :=
      ⟨(List.chain'_cons'.mp h.1).2, fun c hc hcs => h.2 c (List.mem_cons_of_mem x hc) hcs⟩
    rw [ih htail]

/-- `jsTrim` is front-trim then back-trim. -/
theorem jsTrim_eq (s : List Char) :
    jsTrim s = List.rdropWhile jsIsSpace (s.dropWhile jsIsSpace) := rfl

/-- Back-trimming preserves an already front-trimmed list. -/
theorem dropWhile_rdropWhile (p : Char → Bool) (m : List Char)
    (hm : m.dropWhile p = m) :
    (List.rdropWhile p m).dropWhile p = List.rdropWhile p m := by
  cases hr : List.rdropWhile p m with
  | nil => rfl
  | cons x xs =>
    have hpre : List.rdropWhile p m <+: m := List.rdropWhile_prefix p m
    rw [hr] at hpre
    obtain ⟨t, ht⟩ := hpre
    have hx : ¬ p x = true := by
      intro hpx
      rw [← ht] at hm
      rw [List.cons_append, List.dropWhile_cons_of_pos hpx] at hm
      have hle := (List.dropWhile_suffix p (l := xs ++ t)).length_le
      rw [hm] at hle
      simp at hle
    rw [List.dropWhile_cons_of_neg hx]

/-- Trimming is idempotent. -/
theorem jsTrim_idem (l : List Char) : jsTrim (jsTrim l) = jsTrim l := by
  rw [jsTrim_eq, jsTrim_eq]
  rw [dropWhile_rdropWhile jsIsSpace (l.dropWhile jsIsSpace) (List.dropWhile_idempotent _ _)]
  exact List.rdropWhile_idempotent _ _

/-- Trimming preserves well-collapsed text. -/
theorem jsTrim_collapsedP (v : List Char) (h : collapsedP v) : collapsedP (jsTrim v) := by
  obtain ⟨hc, hm⟩ := h
  have hsub : ∀ c ∈ jsTrim v, c ∈ v := by
    intro c hcmem
    simp only [jsTrim, List.mem_reverse] at hcmem
    have h1 := (List.dropWhile_suffix (l := (v.dropWhile jsIsSpace).reverse)
      jsIsSpace).sublist.subset hcmem
    rw [List.mem_reverse] at h1
    exact (List.dropWhile_suffix jsIsSpace).sublist.subset h1
  refine ⟨?_, fun c hcm hcs => hm c (hsub c hcm) hcs⟩
  have hsymm : ∀ (a b : Char), ¬(jsIsSpace a = true ∧ jsIsSpace b = true) →
      ¬(jsIsSpace b = true ∧ jsIsSpace a = true) := fun a b hab hba => hab ⟨hba.2, hba.1⟩
  have h1 : List.Chain' (fun a b => ¬(jsIsSpace a = true ∧ jsIsSpace b = true))
      (v.dropWhile jsIsSpace) :=
    hc.suffix (List.dropWhile_suffix jsIsSpace)
  have h2 : List.Chain' (fun a b => ¬(jsIsSpace a = true ∧ jsIsSpace b = true))
      ((v.dropWhile jsIsSpace).reverse) :=
    List.chain'_reverse.mpr (h1.imp fun a b hab => hsymm a b hab)
  have h3 : List.Chain' (fun a b => ¬(jsIsSpace a = true ∧ jsIsSpace b = true))
      (((v.dropWhile jsIsSpace).reverse).dropWhile jsIsSpace) :=
    h2.suffix (List.dropWhile_suffix jsIsSpace)
  exact List.chain'_reverse.mpr (h3.imp fun a b hab => hsymm a b hab)

/-- One collapse-and-trim pass on already collapsed-and-trimmed text is the
identity. -/
theorem normalizePass_idem (u : List Char) :
    jsTrim (collapseWs (jsTrim (collapseWs u))) = jsTrim (collapseWs u) := by
  rw [collapseWs_of_collapsedP _ (jsTrim_collapsedP _ (collapseWs_collapsedP u))]
  exact jsTrim_idem _

/-- Counterexample to claim C4 as stated: free-text extraction accepts
records with hours far outside `(0, 200)`.  Line pattern 2 (`name US-number
hours`) checks only `isFinite(hours)`, so an OCR line with 500 hours is
returned as a partner record; for contrast, the same hours without a partner
number is rejected by the bounded pattern 4. -/
theorem tip_C4_bounds_counterexample :
    parseOcrToPartners "John Doe US123456 500" = [⟨"John Doe", "US123456", 500⟩] ∧
    ¬((500 : ℚ) < 200) ∧
    parseOcrToPartners "John Doe 500.5" = [] := by
  refine ⟨by decide, by norm_num, by decide⟩

/-- The bounds of each `columnarLoop` entry. -/
theorem columnarLoop_bounds (fuel : ℕ) :
    ∀ (lines : List (List Char)) (e : Partner), e ∈ columnarLoop fuel lines →
      0 < e.hours ∧ e.hours < 200 := by
  induction fuel with
  | zero => intro lines e h; simp [columnarLoop] at h
  | succ f ih =>
    intro lines e h
    cases lines with
    | nil => simp [columnarLoop] at h
    | cons line rest =>
      simp only [columnarLoop] at h
      split at h
      · simp at h
      · split at h
        · exact ih _ e h
        · split at h
          · split at h
            · split at h
              · rcases List.mem_append.mp h with h | h
                · split at h
                  · rename_i hb
                    simp only [List.mem_singleton] at h
                    subst h
                    exact hb
                  · simp at h
                · exact ih _ e h
              · exact ih _ e h
            · exact ih _ e h
          · split at h
            · split at h
              · split at h
                · split at h
                  · rename_i hb
                    rcases List.mem_cons.mp h with h | h
                    · subst h
                      exact hb
                    · exact ih _ e h
                  · exact ih _ e h
                · exact ih _ e h
              · exact ih _ e h
            · exact ih _ e h

/-- The bounds of each token-bucket entry, given they hold of the entries
accumulated so far. -/
theorem tokenBucketGo_bounds :
    ∀ (toks : List (List Char)) (entries : List Partner) (nameTokens : List (List Char))
      (number : List Char) (e : Partner),
      (∀ x ∈ entries, 0 < x.hours ∧ x.hours < 200) →
      e ∈ tokenBucketGo entries nameTokens number toks →
      0 < e.hours ∧ e.hours < 200 := by
  intro toks
  induction toks with
  | nil =>
    intro entries nameTokens number e hinv h
    exact hinv e h
  | cons tok rest ih =>
    intro entries nameTokens number e hinv h
    simp only [tokenBucketGo] at h
    split at h
    · exact ih _ _ _ e hinv h
    · split at h
      · exact ih _ _ _ e hinv h
      · split at h
        · rename_i hcond
          simp only [Bool.and_eq_true, decide_eq_true_eq] at hcond
          refine ih _ _ _ e ?_ h
          intro x hx
          split at hx
          · rcases List.mem_append.mp hx with hx | hx
            · exact hinv x hx
            · simp only [List.mem_singleton] at hx
              subst hx
              exact hcond.2
          · exact hinv x hx
        · split at h
          · exact ih _ _ _ e hinv h
          · split at h
            · exact ih _ _ _ e hinv h
            · exact ih _ _ _ e hinv h

/-- `parseHoursValue` only produces 0 or a value in `[0, 200)`. -/
theorem parseHoursValue_range (s : String) :
    parseHoursValue s = 0 ∨ (0 ≤ parseHoursValue s ∧ parseHoursValue s < 200) := by
  simp only [parseHoursValue]
  split
  · split
    · rename_i hb
      exact Or.inr hb
    · exact Or.inl rfl
  · exact Or.inl rfl

/-- A partner with non-positive hours is never valid. -/
theorem isValidPartnerEntry_of_nonpos (p : Partner) (h : p.hours ≤ 0) :
    isValidPartnerEntry p = false := by
  simp only [isValidPartnerEntry]
  split_ifs with h1 h2 h3 h4 h5 h6 h7 h8 <;> rfl

/-- Claim C4 as amended: the `(0, 200)` hours bound is enforced by the
columnar strategy, by line patterns 4 and 5, by the token-bucket fallback,
and by the table-path validators (`parseHoursValue` composed with
`isValidPartnerEntry`) — but not by line patterns 1-3, which accept any
finite parsed hours (see the counterexample). -/
theorem tip_C4_bounds_amended :
    (∀ (text : String) (e : Partner), e ∈ parseColumnarFormat text →
      0 < e.hours ∧ e.hours < 200) ∧
    (∀ (text : List Char) (e : Partner), e ∈ parseByTokenBuckets text →
      0 < e.hours ∧ e.hours < 200) ∧
    (∀ (line : List Char) (e : Partner), parsePattern4 line = some e →
      0 < e.hours ∧ e.hours < 200) ∧
    (∀ (line : List Char) (e : Partner), parsePattern5 line = some e →
      0 < e.hours ∧ e.hours < 200) ∧
    (∀ (name number hoursStr : String),
      isValidPartnerEntry ⟨name, number, parseHoursValue hoursStr⟩ = true →
      0 < parseHoursValue hoursStr ∧ parseHoursValue hoursStr < 200) := by
  refine ⟨?_, ?_, ?_, ?_, ?_⟩
  · intro text e h
    unfold parseColumnarFormat at h
    split at h
    · simp at h
    · exact columnarLoop_bounds _ _ e h
  · intro text e h
    unfold parseByTokenBuckets at h
    split at h
    · simp at h
    · exact tokenBucketGo_bounds _ _ _ _ e (by intro x hx; simp at hx) h
  · intro line e h
    simp only [parsePattern4] at h
    split at h
    · split at h
      · rename_i hcond
        simp only [Bool.and_eq_true, decide_eq_true_eq] at hcond
        injection h with h
        subst h
        exact hcond.2
      · exact absurd h (by simp)
    · exact absurd h (by simp)
  · intro line e h
    simp only [parsePattern5] at h
    split at h
    · split at h
      · split at h
        · split at h
          · rename_i hb
            split at h
            · injection h with h
              subst h
              exact hb
            · exact absurd h (by simp)
          · exact absurd h (by simp)
        · exact absurd h (by simp)
      · exact absurd h (by simp)
    · exact absurd h (by simp)
  · intro name number hoursStr h
    have hr := parseHoursValue_range hoursStr
    have hpos : ¬ ((Partner.mk name number (parseHoursValue hoursStr)).hours ≤ 0) := by
      intro hle
      rw [isValidPartnerEntry_of_nonpos _ hle] at h
      exact Bool.false_ne_true h
    rcases hr with hr | hr
    · exact absurd (le_of_eq hr) hpos
    · exact ⟨lt_of_not_le hpos, hr.2⟩

/-- Witness for the amended C4: the columnar strategy accepts the sample
four-line group and its hours lie inside the bound. -/
theorem tip_C4_bounds_amended_witness :
    0 < (Partner.mk "John Doe" "US37008498" 9.22).hours ∧
      (Partner.mk "John Doe" "US37008498" 9.22).hours < 200 :=
  tip_C4_bounds_amended.1 "69600\nJohn Doe\nUS37008498\n9.22"
    ⟨"John Doe", "US37008498", 9.22⟩ (by decide)

/-- Counterexample to claim C5 as stated: `stripMetadataTokens` is a pure
function but is not idempotent.  On `"StoreStore Number 6Number 7"` the first
pass removes the inner `Store Number 6` match, splicing the surrounding text
into a fresh `Store Number 7` match that only the second pass removes. -/
theorem tip_C5_not_idempotent :
    stripMetadataTokens (stripMetadataTokens "StoreStore Number 6Number 7") ≠
        stripMetadataTokens "StoreStore Number 6Number 7" ∧
    stripMetadataTokens "StoreStore Number 6Number 7" = "Store Number 7" ∧
    stripMetadataTokens (stripMetadataTokens "StoreStore Number 6Number 7") = "" := by
  refine ⟨?_, by decide, by decide⟩
  decide

/-- Claim C5 as amended: `stripMetadataTokens` is idempotent exactly on those
inputs where the pattern-replacement phase finds nothing further to replace
in the normalized output — the whitespace-collapse and trim phase is always
idempotent, so a second application changes the result only when a
replacement splices text into a new metadata-pattern match. -/
theorem tip_C5_conditionally_idempotent (s : String)
    (h : stripPass (stripMetadataTokens s).toList = (stripMetadataTokens s).toList) :
    stripMetadataTokens (stripMetadataTokens s) = stripMetadataTokens s := by
  by_cases hte : (stripMetadataTokens s).isEmpty
  · have h2 : stripMetadataTokens s = "" := (String.isEmpty_iff _).mp hte
    rw [h2]
    rfl
  · by_cases hse : s.isEmpty
    · exact absurd (by rw [stripMetadataTokens, if_pos hse]; rfl :
        (stripMetadataTokens s).isEmpty = true) (by exact hte)
    · rw [show stripMetadataTokens (stripMetadataTokens s) =
          String.mk (jsTrim (collapseWs (stripPass (stripMetadataTokens s).toList))) from by
        rw [stripMetadataTokens, if_neg hte]]
      rw [h]
      have hs1 : stripMetadataTokens s = String.mk (jsTrim (collapseWs (stripPass s.toList))) := by
        rw [stripMetadataTokens, if_neg hse]
      rw [hs1]
      have hmk : ∀ l : List Char, (String.mk l).toList = l := fun l => rfl
      rw [hmk, normalizePass_idem]

/-- Witness for the amended C5 on `"hello world"`, where no metadata pattern
matches: normalization is idempotent there. -/
theorem tip_C5_conditionally_idempotent_witness :
    stripMetadataTokens (stripMetadataTokens "hello world") =
      stripMetadataTokens "hello world" :=
  tip_C5_conditionally_idempotent "hello world" (by decide)

end TipJar

end TipJarDevelopment
